import Mathlib

/-!
Shallow embedding of the data-normalization core of the DHIS2 AI Insights
app, together with theorems checking the specification's claims about it.

The embedded code comes from:
* `src/src/utils/dhis2Data.js` — `fetchDataForElements` (item-selector
  normalization and org-unit resolution), `getActualPeriod`,
  `calculateSummary`;
* the dashboard component (`src/unnamed/part_003`) —
  `processDataForVisualization` (response validation and the chart
  projection).

Modelling conventions:
* JavaScript strings are Lean `String`s; string helpers are written over
  the underlying `List Char` (`String.data`).
* `new Date()` readings are passed as explicit `currentYear`/`currentMonth`
  parameters (JavaScript months are converted to 1-based, as the source
  does with `getMonth() + 1`).
* JavaScript numbers are modelled as `ℚ`; `toFixed(2)` is modelled as
  exact rounding to two decimals with ties going up, per the ECMA-262
  specification of `toFixed` ("if there are two such n, pick the larger").
* `parseFloat` is modelled on canonical decimal numerals (optional minus
  sign, digits, optional fraction); any other string is treated as the
  NaN case.  The analytics API serialises numeric cells canonically.
* `Array.prototype.sort` (ES2019+: stable) is modelled by
  `List.insertionSort`, which is stable; all sorts proved about here have
  pairwise-distinct keys, so any stable sort model gives the same output.
* `console.log` / `console.warn` calls in the org-unit resolution block
  are recorded as explicit note events with their level.
-/

namespace DHIS2

/-- Decimal digit characters of a natural number, most significant first,
with explicit fuel so the definition reduces in the kernel.  This models
the JavaScript number-to-string coercion used by template literals such
as the one in `formatYearMonth` (dhis2Data.js:337-339). -/
def natDigitsAux : Nat → Nat → List Char
  | 0, _ => []
  | fuel + 1, n =>
    if n < 10 then [Nat.digitChar n]
    else natDigitsAux fuel (n / 10) ++ [Nat.digitChar (n % 10)]

/-- Decimal digit characters of a natural number, most significant first. -/
def natDigits (n : Nat) : List Char := natDigitsAux (n + 1) n

/-- Decimal string representation of a natural number (JavaScript
`${n}` / `String(n)` for a nonnegative integer). -/
def natRepr (n : Nat) : String := String.mk (natDigits n)

/-- Numeric value of a list of decimal digit characters. -/
def digitsToNat (cs : List Char) : Nat :=
  cs.foldl (fun acc c => 10 * acc + (c.toNat - 48)) 0

theorem natDigitsAux_fuel {n : Nat} :
    ∀ {fuel : Nat}, n < fuel → natDigitsAux fuel n = natDigits n := by
  induction n using Nat.strong_induction_on with
  | _ n ih =>
    intro fuel hfuel
    match fuel, hfuel with
    | f + 1, hfuel =>
      show natDigitsAux (f + 1) n = natDigitsAux (n + 1) n
      by_cases h10 : n < 10
      · simp [natDigitsAux, h10]
      · have hdiv : n / 10 < n := Nat.div_lt_self (by omega) (by omega)
        have h1 : natDigitsAux f (n / 10) = natDigits (n / 10) :=
          ih (n / 10) hdiv (by omega)
        have h2 : natDigitsAux n (n / 10) = natDigits (n / 10) :=
          ih (n / 10) hdiv (by omega)
        simp [natDigitsAux, h10, h1, h2]

/-- Unfolding equation for `natDigits`. -/
theorem natDigits_eq (n : Nat) :
    natDigits n =
      if n < 10 then [Nat.digitChar n]
      else natDigits (n / 10) ++ [Nat.digitChar (n % 10)] := by
  by_cases h10 : n < 10
  · simp [natDigits, natDigitsAux, h10]
  · have hdiv : n / 10 < n := Nat.div_lt_self (by omega) (by omega)
    have h1 : natDigitsAux n (n / 10) = natDigits (n / 10) :=
      natDigitsAux_fuel (by omega)
    simp [natDigits, natDigitsAux, h10]
    exact h1

theorem digitChar_toNat {d : Nat} (hd : d < 10) :
    (Nat.digitChar d).toNat = d + 48 := by
  interval_cases d <;> rfl

theorem digitsToNat_append_singleton (cs : List Char) (c : Char) :
    digitsToNat (cs ++ [c]) = 10 * digitsToNat cs + (c.toNat - 48) := by
  simp [digitsToNat, List.foldl_append]

/-- Round trip: parsing the decimal digits of `n` gives back `n`. -/
theorem digitsToNat_natDigits (n : Nat) : digitsToNat (natDigits n) = n := by
  induction n using Nat.strong_induction_on with
  | _ n ih =>
    rw [natDigits_eq]
    by_cases h10 : n < 10
    · simp [h10, digitsToNat, digitChar_toNat h10]
    · have hdiv : n / 10 < n := Nat.div_lt_self (by omega) (by omega)
      have hmod : n % 10 < 10 := Nat.mod_lt _ (by omega)
      simp [h10, digitsToNat_append_singleton, ih (n / 10) hdiv,
        digitChar_toNat hmod]
      omega

theorem natDigits_injective {a b : Nat} (h : natDigits a = natDigits b) :
    a = b := by
  have := digitsToNat_natDigits a
  rw [h, digitsToNat_natDigits] at this
  omega

theorem natRepr_injective {a b : Nat} (h : natRepr a = natRepr b) : a = b :=
  natDigits_injective (congrArg String.data h)

theorem natDigits_length_one {n : Nat} (h : n < 10) :
    natDigits n = [Nat.digitChar n] := by
  rw [natDigits_eq]; simp [h]

theorem natDigits_length_two {n : Nat} (h10 : 10 ≤ n) (h100 : n < 100) :
    (natDigits n).length = 2 := by
  rw [natDigits_eq]
  have : n / 10 < 10 := by omega
  simp [Nat.not_lt.mpr h10, natDigits_length_one this]

theorem natDigits_head_ne_zero {n : Nat} (h : 1 ≤ n) :
    ∃ c cs, natDigits n = c :: cs ∧ c ≠ '0' := by
  induction n using Nat.strong_induction_on with
  | _ n ih =>
    rw [natDigits_eq]
    by_cases h10 : n < 10
    · refine ⟨Nat.digitChar n, [], by simp [h10], ?_⟩
      interval_cases n <;> decide
    · have hdiv : n / 10 < n := Nat.div_lt_self (by omega) (by omega)
      have hdiv1 : 1 ≤ n / 10 := by omega
      obtain ⟨c, cs, hcs, hc⟩ := ih (n / 10) hdiv hdiv1
      exact ⟨c, cs ++ [Nat.digitChar (n % 10)], by simp [h10, hcs], hc⟩

theorem digitChar_isDigit {d : Nat} (hd : d < 10) :
    (Nat.digitChar d).isDigit = true := by
  interval_cases d <;> decide

theorem natDigits_all_isDigit (n : Nat) :
    ∀ c ∈ natDigits n, c.isDigit = true := by
  induction n using Nat.strong_induction_on with
  | _ n ih =>
    rw [natDigits_eq]
    by_cases h10 : n < 10
    · simp [h10, digitChar_isDigit h10]
    · have hdiv : n / 10 < n := Nat.div_lt_self (by omega) (by omega)
      have hmod : n % 10 < 10 := Nat.mod_lt _ (by omega)
      simp only [h10, if_false, List.mem_append, List.mem_singleton]
      rintro c (hc | rfl)
      · exact ih (n / 10) hdiv c hc
      · exact digitChar_isDigit hmod

/-- Digit count of a year in `[1000, 9999]` is 4. -/
theorem natDigits_length_four {n : Nat} (hlo : 1000 ≤ n) (hhi : n ≤ 9999) :
    (natDigits n).length = 4 := by
  rw [natDigits_eq]
  have h1 : ¬ n < 10 := by omega
  rw [natDigits_eq]
  have h2 : ¬ n / 10 < 10 := by omega
  rw [natDigits_eq]
  have h3 : ¬ n / 10 / 10 < 10 := by omega
  have h4 : n / 10 / 10 / 10 < 10 := by omega
  simp [h1, h2, h3, natDigits_length_one h4]

/-- Month digits of `String(month).padStart(2, '0')` in `formatYearMonth`
(dhis2Data.js:337-339). -/
def pad2List (m : Nat) : List Char :=
  if m < 10 then '0' :: natDigits m else natDigits m

theorem pad2List_length {m : Nat} (hm : m ≤ 12) : (pad2List m).length = 2 := by
  unfold pad2List
  by_cases h10 : m < 10
  · simp [h10, natDigits_length_one h10]
  · have h2 : (natDigits m).length = 2 :=
      natDigits_length_two (by omega) (by omega)
    simp [h10, h2]

theorem pad2List_injective {m₁ m₂ : Nat} (h₁ : m₁ ≤ 12) (h₂ : m₂ ≤ 12)
    (h : pad2List m₁ = pad2List m₂) : m₁ = m₂ := by
  unfold pad2List at h
  by_cases c₁ : m₁ < 10 <;> by_cases c₂ : m₂ < 10
  · simp [c₁, c₂] at h
    exact natDigits_injective h
  · simp [c₁, c₂] at h
    obtain ⟨c, cs, hcs, hc⟩ := natDigits_head_ne_zero (n := m₂) (by omega)
    rw [hcs] at h
    exact absurd (List.head_eq_of_cons_eq h).symm hc
  · simp [c₁, c₂] at h
    obtain ⟨c, cs, hcs, hc⟩ := natDigits_head_ne_zero (n := m₁) (by omega)
    rw [hcs] at h
    exact absurd (List.head_eq_of_cons_eq h) hc
  · simp [c₁, c₂] at h
    exact natDigits_injective h

/-- Faithful to `formatYearMonth` in `getActualPeriod`
(dhis2Data.js:337-339): the template literal concatenates the decimal
representation of the year with the month padded to two digits. -/
def formatYearMonth (year month : Nat) : String :=
  String.mk (natDigits year ++ pad2List month)

theorem formatYearMonth_injective {y₁ m₁ y₂ m₂ : Nat}
    (hm₁ : m₁ ≤ 12) (hm₂ : m₂ ≤ 12)
    (h : formatYearMonth y₁ m₁ = formatYearMonth y₂ m₂) :
    y₁ = y₂ ∧ m₁ = m₂ := by
  have hdata : natDigits y₁ ++ pad2List m₁ = natDigits y₂ ++ pad2List m₂ :=
    congrArg String.data h
  have hlen : (pad2List m₁).length = (pad2List m₂).length := by
    rw [pad2List_length hm₁, pad2List_length hm₂]
  obtain ⟨hy, hm⟩ := List.append_inj' hdata hlen
  exact ⟨natDigits_injective hy, pad2List_injective hm₁ hm₂ hm⟩

/-- One step back in the calendar, as performed by the loop body in
`getActualPeriod`'s `LAST_12_MONTHS` case (dhis2Data.js:369-374):
`month--; if (month === 0) { month = 12; year--; }`. -/
def prevMonth : Nat × Nat → Nat × Nat
  | (y, m) => if m = 1 then (y - 1, 12) else (y, m - 1)

/-- The calendar month `i` months before `(y, m)`. -/
def backMonth (y m i : Nat) : Nat × Nat := prevMonth^[i] (y, m)

/-- The `(year, month)` pairs visited by the `LAST_12_MONTHS` loop of
`getActualPeriod` (dhis2Data.js:361-375), newest first: the loop pushes
the current month, then steps one month back, `count` times. -/
def monthsBack : Nat → Nat → Nat → List (Nat × Nat)
  | _, _, 0 => []
  | y, m, count + 1 =>
    (y, m) :: (if m = 1 then monthsBack (y - 1) 12 count
               else monthsBack y (m - 1) count)

/-- The 12 `YYYYMM` identifiers produced by the `LAST_12_MONTHS` case of
`getActualPeriod` (dhis2Data.js:359-377), in the order the loop pushes
them. -/
def last12MonthsPeriods (y m : Nat) : List String :=
  (monthsBack y m 12).map (fun p => formatYearMonth p.1 p.2)

/-- JavaScript `Array.prototype.join(';')` on an array of strings. -/
def joinSemicolon : List String → String
  | [] => ""
  | [s] => s
  | s :: t :: rest => s ++ ";" ++ joinSemicolon (t :: rest)

/-- Faithful to `getActualPeriod` (dhis2Data.js:328-398), with the
`new Date()` readings passed explicitly: `currentYear = getFullYear()`,
`currentMonth = getMonth() + 1`. -/
def getActualPeriod (relativePeriod : String)
    (currentYear currentMonth : Nat) : String :=
  let lastYear := currentYear - 1
  if relativePeriod = "THIS_MONTH" then
    formatYearMonth currentYear currentMonth
  else if relativePeriod = "LAST_MONTH" then
    if currentMonth = 1 then formatYearMonth lastYear 12
    else formatYearMonth currentYear (currentMonth - 1)
  else if relativePeriod = "THIS_YEAR" then natRepr currentYear
  else if relativePeriod = "LAST_YEAR" then natRepr lastYear
  else if relativePeriod = "LAST_12_MONTHS" then
    joinSemicolon (last12MonthsPeriods currentYear currentMonth)
  else if relativePeriod = "THIS_QUARTER" then
    natRepr currentYear ++ "Q" ++ natRepr ((currentMonth - 1) / 3 + 1)
  else if relativePeriod = "LAST_QUARTER" then
    let lastQuarter := (currentMonth - 1) / 3
    if lastQuarter = 0 then natRepr lastYear ++ "Q" ++ natRepr 4
    else natRepr currentYear ++ "Q" ++ natRepr lastQuarter
  else relativePeriod

theorem backMonth_zero (y m : Nat) : backMonth y m 0 = (y, m) := rfl

theorem backMonth_succ (y m i : Nat) :
    backMonth y m (i + 1) =
      backMonth (prevMonth (y, m)).1 (prevMonth (y, m)).2 i := by
  simp only [backMonth, Function.iterate_succ_apply]

theorem monthsBack_eq_map :
    ∀ (count y m : Nat),
      monthsBack y m count = (List.range count).map (backMonth y m)
  | 0, _, _ => by simp [monthsBack]
  | count + 1, y, m => by
    rw [monthsBack, List.range_succ_eq_map, List.map_cons, List.map_map,
      backMonth_zero]
    have hmapeq :
        List.map (backMonth y m ∘ Nat.succ) (List.range count) =
          List.map (backMonth (prevMonth (y, m)).1 (prevMonth (y, m)).2)
            (List.range count) := by
      apply List.map_congr_left
      intro i _
      exact backMonth_succ y m i
    rw [hmapeq]
    by_cases hm : m = 1
    · subst hm
      rw [if_pos rfl, monthsBack_eq_map count (y - 1) 12]
      simp [prevMonth]
    · rw [if_neg hm, monthsBack_eq_map count y (m - 1)]
      simp [prevMonth, hm]

/-- Linear key of a `(year, month)` pair: months since year 0. -/
def monthKey (p : Nat × Nat) : Nat := 12 * p.1 + (p.2 - 1)

theorem backMonth_key (y m : Nat) (hy : 1 ≤ y) (hm1 : 1 ≤ m) (hm2 : m ≤ 12) :
    ∀ i, i ≤ 12 * y + (m - 1) →
      monthKey (backMonth y m i) = 12 * y + (m - 1) - i ∧
      1 ≤ (backMonth y m i).2 ∧ (backMonth y m i).2 ≤ 12 := by
  intro i
  induction i with
  | zero => intro _; exact ⟨rfl, hm1, hm2⟩
  | succ i ih =>
    intro hle
    obtain ⟨hkey, hb1, hb2⟩ := ih (by omega)
    rcases hab : backMonth y m i with ⟨a, b⟩
    rw [hab] at hkey hb1 hb2
    have hstep : backMonth y m (i + 1) = prevMonth (a, b) := by
      rw [backMonth, Function.iterate_succ_apply']
      rw [backMonth] at hab
      rw [hab]
    simp only [monthKey] at hkey
    by_cases hb : b = 1
    · subst hb
      have hpm : backMonth y m (i + 1) = (a - 1, 12) := by
        rw [hstep]; simp [prevMonth]
      rw [hpm]
      simp only [monthKey]
      refine ⟨by omega, by omega, by omega⟩
    · have hpm : backMonth y m (i + 1) = (a, b - 1) := by
        rw [hstep]; simp [prevMonth, hb]
      rw [hpm]
      simp only [monthKey]
      refine ⟨by omega, by omega, by omega⟩

/-- C1 supporting fact: each element of the rolling window is the month
that many steps back from the current month. -/
theorem last12MonthsPeriods_eq_map (y m : Nat) :
    last12MonthsPeriods y m =
      (List.range 12).map
        (fun i => formatYearMonth (backMonth y m i).1 (backMonth y m i).2) := by
  rw [last12MonthsPeriods, monthsBack_eq_map, List.map_map]
  rfl

/-- C1 (amended): for every evaluation time, resolving `LAST_12_MONTHS`
returns exactly 12 distinct, consecutive `YYYYMM` period identifiers
spanning the 12 calendar months ending at the current month inclusive,
ordered NEWEST first (the current month is the first identifier and each
later identifier is one calendar month earlier) — not oldest first as the
specification states.  For 4-digit years every identifier is a 6-digit
string. -/
theorem last12Months_resolution (y m : Nat) (hy : 1 ≤ y)
    (hm1 : 1 ≤ m) (hm2 : m ≤ 12) :
    getActualPeriod "LAST_12_MONTHS" y m =
      joinSemicolon (last12MonthsPeriods y m) ∧
    (last12MonthsPeriods y m).length = 12 ∧
    (last12MonthsPeriods y m).Nodup ∧
    last12MonthsPeriods y m =
      (List.range 12).map
        (fun i => formatYearMonth (backMonth y m i).1 (backMonth y m i).2) ∧
    (1001 ≤ y → y ≤ 9999 →
      ∀ s ∈ last12MonthsPeriods y m,
        s.data.length = 6 ∧ ∀ c ∈ s.data, c.isDigit = true) := by
  have hK : (12 : Nat) ≤ 12 * y + (m - 1) := by omega
  have hmap := last12MonthsPeriods_eq_map y m
  refine ⟨by simp [getActualPeriod], ?_, ?_, hmap, ?_⟩
  · rw [hmap]; simp
  · rw [hmap]
    refine List.Nodup.map_on ?_ (List.nodup_range 12)
    intro i hi j hj hfmt
    rw [List.mem_range] at hi hj
    obtain ⟨hki, hbi1, hbi2⟩ := backMonth_key y m hy hm1 hm2 i (by omega)
    obtain ⟨hkj, hbj1, hbj2⟩ := backMonth_key y m hy hm1 hm2 j (by omega)
    obtain ⟨hy', hm'⟩ := formatYearMonth_injective hbi2 hbj2 hfmt
    have : monthKey (backMonth y m i) = monthKey (backMonth y m j) := by
      simp only [monthKey, hy', hm']
    omega
  · intro hylo hyhi s hs
    rw [hmap] at hs
    obtain ⟨i, hi, rfl⟩ := List.mem_map.mp hs
    rw [List.mem_range] at hi
    obtain ⟨hki, hb1, hb2⟩ := backMonth_key y m hy hm1 hm2 i (by omega)
    rcases hab : backMonth y m i with ⟨a, b⟩
    rw [hab] at hki hb1 hb2
    simp only [monthKey] at hki
    have ha : 1000 ≤ a ∧ a ≤ 9999 := by omega
    constructor
    · show (natDigits a ++ pad2List b).length = 6
      rw [List.length_append, natDigits_length_four ha.1 ha.2,
        pad2List_length hb2]
    · show ∀ c ∈ natDigits a ++ pad2List b, c.isDigit = true
      intro c hc
      rcases List.mem_append.mp hc with h | h
      · exact natDigits_all_isDigit a c h
      · unfold pad2List at h
        by_cases h10 : b < 10
        · rw [if_pos h10] at h
          rcases List.mem_cons.mp h with rfl | h
          · decide
          · exact natDigits_all_isDigit b c h
        · rw [if_neg h10] at h
          exact natDigits_all_isDigit b c h

/-- Witness for C1's theorem at the concrete evaluation time March 2024. -/
theorem last12Months_resolution_witness :
    (1 ≤ 2024 ∧ 1 ≤ 3 ∧ 3 ≤ 12) ∧
    (getActualPeriod "LAST_12_MONTHS" 2024 3 =
      joinSemicolon (last12MonthsPeriods 2024 3) ∧
    (last12MonthsPeriods 2024 3).length = 12 ∧
    (last12MonthsPeriods 2024 3).Nodup ∧
    last12MonthsPeriods 2024 3 =
      (List.range 12).map
        (fun i =>
          formatYearMonth (backMonth 2024 3 i).1 (backMonth 2024 3 i).2) ∧
    (1001 ≤ 2024 → 2024 ≤ 9999 →
      ∀ s ∈ last12MonthsPeriods 2024 3,
        s.data.length = 6 ∧ ∀ c ∈ s.data, c.isDigit = true)) :=
  ⟨⟨by decide, by decide, by decide⟩,
    last12Months_resolution 2024 3 (by decide) (by decide) (by decide)⟩

/-- Counterexample to C1 as stated: evaluated in March 2024 the resolver
returns the window newest first — `"202403"` is the first identifier —
and not the oldest-first sequence the specification claims. -/
theorem last12Months_oldest_first_counterexample :
    last12MonthsPeriods 2024 3 =
      ["202403", "202402", "202401", "202312", "202311", "202310",
       "202309", "202308", "202307", "202306", "202305", "202304"] ∧
    last12MonthsPeriods 2024 3 ≠
      ["202304", "202305", "202306", "202307", "202308", "202309",
       "202310", "202311", "202312", "202401", "202402", "202403"] := by
  constructor
  · rfl
  · decide

/-- C7: period resolution handles year rollover explicitly — `LAST_MONTH`
resolved in January yields December of the previous year in `YYYYMM`
encoding, and `LAST_QUARTER` resolved in any month of the first quarter
yields Q4 of the previous year in `YYYYQN` encoding. -/
theorem rollover_resolution (y m : Nat) (hm1 : 1 ≤ m) (hm3 : m ≤ 3) :
    getActualPeriod "LAST_MONTH" y 1 = formatYearMonth (y - 1) 12 ∧
    getActualPeriod "LAST_QUARTER" y m = natRepr (y - 1) ++ "Q" ++ natRepr 4 := by
  constructor
  · simp [getActualPeriod]
  · have h0 : (m - 1) / 3 = 0 := by omega
    simp [getActualPeriod, h0]

/-- Witness for C7's theorem at the concrete evaluation time
February 2025. -/
theorem rollover_resolution_witness :
    (1 ≤ 2 ∧ 2 ≤ 3) ∧
    (getActualPeriod "LAST_MONTH" 2025 1 = formatYearMonth 2024 12 ∧
     getActualPeriod "LAST_QUARTER" 2025 2 =
       natRepr 2024 ++ "Q" ++ natRepr 4) :=
  ⟨⟨by decide, by decide⟩, rollover_resolution 2025 2 (by decide) (by decide)⟩

/-- Header of the analytics response.  Only `name` is consulted by the
embedded functions; `column` and `valueType` are carried through the
source untouched and are omitted here. -/
structure Header where
  name : String
deriving DecidableEq

/-- One analytics response row: a positional list of cell strings.  A
JavaScript access `row[i]` past the end yields `undefined`, modelled by
`List.get?` returning `none` at the use sites. -/
abbrev Row := List String

/-- The `metaData.items` dictionary of the response: id → display name.
An absent `metaData` or `metaData.items` is modelled by the empty list
(every lookup misses, as the null checks in the source arrange). -/
abbrev MetaItems := List (String × String)

def lookupMeta (items : MetaItems) (id : String) : Option String :=
  (items.find? (fun p => p.1 = id)).map (fun p => p.2)

/-- Display-name resolution `metaData.items[id].name || id` used
throughout `calculateSummary`; a falsy (empty/absent) name falls back to
the raw id. -/
def metaDisplayName (items : MetaItems) (id : String) : String :=
  match lookupMeta items id with
  | some n => if n = "" then id else n
  | none => id

def monthNames : List String :=
  ["January", "February", "March", "April", "May", "June", "July",
   "August", "September", "October", "November", "December"]

/-- Faithful to the `formatPeriodId` helper inside `calculateSummary`
(dhis2Data.js:481-506).  A `YYYYMM` month outside 1..12 indexes past
`monthNames` and JavaScript interpolates `undefined`, modelled by the
"undefined" fallback string. -/
def formatPeriodId (periodId : String) : String :=
  let cs := periodId.data
  if cs.length = 6 ∧ cs.all Char.isDigit then
    let year := String.mk (cs.take 4)
    let month := digitsToNat (cs.drop 4)
    (if month = 0 then "undefined"
     else monthNames.getD (month - 1) "undefined") ++ " " ++ year
  else if cs.length = 6 ∧ (cs.take 4).all Char.isDigit ∧
      cs.getD 4 ' ' = 'Q' ∧ (cs.drop 5).all Char.isDigit then
    "Q" ++ String.mk (cs.drop 5) ++ " " ++ String.mk (cs.take 4)
  else if cs.length = 4 ∧ cs.all Char.isDigit then
    "Year " ++ periodId
  else periodId

/-- Period display name used by `calculateSummary`'s period breakdown and
time series (dhis2Data.js:649-655, 719-721):
`metaData.items[peId].name || formatPeriodId(peId)`, falling back to
`formatPeriodId` when the dictionary misses. -/
def periodDisplayName (items : MetaItems) (peId : String) : String :=
  match lookupMeta items peId with
  | some n => if n = "" then formatPeriodId peId else n
  | none => formatPeriodId peId

/-- Value of a decimal fraction (the digits after the dot) as a rational. -/
def fracToRat (cs : List Char) : ℚ :=
  (digitsToNat cs : ℚ) / ((10 : ℚ) ^ cs.length)

/-- JavaScript `parseFloat`, modelled on canonical decimal numerals:
optional minus sign, a nonempty integer digit part, optionally a dot and
fraction digits.  Any other string is the NaN case (`none`); the DHIS2
analytics API serialises numeric cells in this canonical form. -/
def parseFloatStr (s : String) : Option ℚ :=
  let signed := match s.data with
    | '-' :: rest => (true, rest)
    | cs => (false, cs)
  let intPart := signed.2.takeWhile Char.isDigit
  let rest := signed.2.dropWhile Char.isDigit
  if intPart.isEmpty then none
  else
    let base : ℚ := digitsToNat intPart
    let val : Option ℚ :=
      match rest with
      | [] => some base
      | '.' :: frac =>
        if frac.all Char.isDigit then some (base + fracToRat frac) else none
      | _ => none
    val.map (fun v => if signed.1 then -v else v)

/-- JavaScript `Number.prototype.toFixed(2)` on an exact rational:
rounding to two decimals with ties going to the larger candidate, per
ECMA-262 ("if there are two such n, pick the larger n").  The source
feeds the result back through `parseFloat`, so the model keeps it as a
rational rather than a string. -/
def toFixed2 (q : ℚ) : ℚ := ((⌊q * 100 + 1 / 2⌋ : ℤ) : ℚ) / 100

/-- Summary statistics of one value group, as assembled at
dhis2Data.js:589-596: `mean`, `median` and `sum` are the values reported
through `toFixed(2)`; `count`, `min`, `max` are reported raw. -/
structure SummaryStats where
  count : Nat
  min : ℚ
  max : ℚ
  mean : ℚ
  median : ℚ
  sum : ℚ
deriving DecidableEq

/-- Statistics block computed per value group in `calculateSummary`
(dhis2Data.js:574-596; the same block is repeated verbatim at 621-639
and 668-686): sum and mean, `Math.min`/`Math.max` over the spread,
median over a numerically sorted copy.  All call sites guard against an
empty group, so the `[]` cases are unreachable defaults. -/
def computeStats (values : List ℚ) : SummaryStats :=
  let sum := values.foldl (fun acc v => acc + v) 0
  let mean := sum / (values.length : ℚ)
  let minv := match values with
    | [] => 0
    | v :: vs => vs.foldl (fun a b => Min.min a b) v
  let maxv := match values with
    | [] => 0
    | v :: vs => vs.foldl (fun a b => Max.max a b) v
  let sorted := List.insertionSort (fun a b : ℚ => a ≤ b) values
  let middle := sorted.length / 2
  let median :=
    if sorted.length % 2 = 0 then
      (sorted.getD (middle - 1) 0 + sorted.getD middle 0) / 2
    else sorted.getD middle 0
  { count := values.length, min := minv, max := maxv,
    mean := toFixed2 mean, median := toFixed2 median, sum := toFixed2 sum }

/-- Update the value stored at string key `k` of a JavaScript-object-like
association list: insertion order is preserved and a new key is appended
at the end, matching JavaScript object key enumeration order. -/
def updateAt {β : Type} (k : String) (f : Option β → β) :
    List (String × β) → List (String × β)
  | [] => [(k, f none)]
  | (k₀, b) :: rest =>
    if k₀ = k then (k₀, f (some b)) :: rest
    else (k₀, b) :: updateAt k f rest

/-- The idiom `if (!obj[k]) obj[k] = []; obj[k].push(v)`. -/
def pushAt (k : String) (v : ℚ) (l : List (String × List ℚ)) :
    List (String × List ℚ) :=
  updateAt k (fun o => (o.getD []) ++ [v]) l

/-- Plain assignment `obj[k] = b`: overwrites in place, appends when new. -/
def setAt {β : Type} (k : String) (b : β) :
    List (String × β) → List (String × β)
  | [] => [(k, b)]
  | (k₀, b₀) :: rest =>
    if k₀ = k then (k₀, b) :: rest else (k₀, b₀) :: setAt k b rest

/-- Entry of `dataByElementAndPeriod` (dhis2Data.js:537-546), keyed by
the combined string `deId + "_" + peId`. -/
structure EPEntry where
  dataElement : String
  period : String
  values : List ℚ
deriving DecidableEq, Inhabited

/-- The four grouping objects built by the row scan of
`calculateSummary` (dhis2Data.js:509-560). -/
structure GroupedData where
  byElement : List (String × List ℚ)
  byOrgUnit : List (String × List (String × List ℚ))
  byPeriod : List (String × List (String × List ℚ))
  byElementAndPeriod : List (String × EPEntry)
deriving DecidableEq

def GroupedData.empty : GroupedData := ⟨[], [], [], []⟩

/-- One iteration of the `rows.forEach` scan in `calculateSummary`
(dhis2Data.js:514-560).  `deIndex` is used unguarded in the source, so a
missing `dx` column groups everything under the stringified `undefined`
key; `peId`/`ouId` are guarded (`peIndex >= 0 ? ... : null`) and then
truthiness-checked, which `Option` bind plus the empty-string check
model. -/
def scanRow (deIndex ouIndex peIndex valueIndex : Option Nat)
    (multiOrgUnitMode : Bool) (st : GroupedData) (row : Row) : GroupedData :=
  let deId := (deIndex.bind (fun i => row.get? i)).getD "undefined"
  let ouId := ouIndex.bind (fun i => row.get? i)
  let peId := peIndex.bind (fun i => row.get? i)
  match (valueIndex.bind (fun i => row.get? i)).bind parseFloatStr with
  | none => st
  | some v =>
    let st₁ := { st with byElement := pushAt deId v st.byElement }
    let st₂ :=
      match peId with
      | some pe =>
        if pe = "" then st₁
        else
          { st₁ with
            byPeriod :=
              updateAt pe (fun o => pushAt deId v (o.getD [])) st₁.byPeriod,
            byElementAndPeriod :=
              updateAt (deId ++ "_" ++ pe)
                (fun o =>
                  match o with
                  | none => EPEntry.mk deId pe [v]
                  | some e => { e with values := e.values ++ [v] })
                st₁.byElementAndPeriod }
      | none => st₁
    match ouId with
    | some ou =>
      if multiOrgUnitMode ∧ ou ≠ "" then
        { st₂ with
          byOrgUnit :=
            updateAt ou (fun o => pushAt deId v (o.getD [])) st₂.byOrgUnit }
      else st₂
    | none => st₂

/-- Strict code-point lexicographic comparison of character lists; the
model of the JavaScript string comparison underlying `localeCompare` on
the ASCII period identifiers compared by this code. -/
def lexLt : List Char → List Char → Bool
  | [], [] => false
  | [], _ :: _ => true
  | _ :: _, [] => false
  | a :: as, b :: bs =>
    if a < b then true else if b < a then false else lexLt as bs

/-- The ≤-relation induced by `a.localeCompare(b)` used as an ascending
sort comparator. -/
def jsStrLe (a b : String) : Bool := !(lexLt b.data a.data)

/-- Result of the time-series grouping step (dhis2Data.js:696-705):
for each data element in first-occurrence order, its per-period average
points in key insertion order, before any sorting. -/
def elementSeriesRaw (entries : List (String × EPEntry)) :
    List (String × List (String × ℚ)) :=
  entries.foldl
    (fun acc p =>
      updateAt p.2.dataElement
        (fun o =>
          (o.getD []) ++
            [(p.2.period,
              p.2.values.foldl (fun a v => a + v) 0 / (p.2.values.length : ℚ))])
        acc)
    []

/-- The time-series assembly of `calculateSummary` (dhis2Data.js:692-725):
per element, sort the period points with
`(a, b) => a.period.localeCompare(b.period)` and map them to display
names with the averaged value passed through `toFixed(2)`. -/
def buildTimeSeries (meta : MetaItems) (entries : List (String × EPEntry)) :
    List (String × List (String × ℚ)) :=
  (elementSeriesRaw entries).foldl
    (fun acc p =>
      setAt (metaDisplayName meta p.1)
        ((List.insertionSort (fun a b : String × ℚ => jsStrLe a.1 b.1 = true) p.2).map
          (fun q => (periodDisplayName meta q.1, toFixed2 q.2)))
        acc)
    []

/-- Per-element statistics map (dhis2Data.js:565-597, with the same loop
body reused by the breakdown sections): groups with an empty value list
are skipped, display names resolved through the metadata dictionary, and
a name collision overwrites in place like a JavaScript object key. -/
def buildStatsMap (meta : MetaItems) (groups : List (String × List ℚ)) :
    List (String × SummaryStats) :=
  groups.foldl
    (fun acc p =>
      if p.2.isEmpty then acc
      else setAt (metaDisplayName meta p.1) (computeStats p.2) acc)
    []

/-- The summary object returned by `calculateSummary`.  The source mixes
element names and the three breakdown sub-objects in one JavaScript
object; they are separated into fields here, with an empty list standing
for an absent key, so the empty summary `{}` is `Summary.empty`. -/
structure Summary where
  byElement : List (String × SummaryStats)
  orgUnitBreakdown : List (String × List (String × SummaryStats))
  periodBreakdown : List (String × List (String × SummaryStats))
  timeSeriesData : List (String × List (String × ℚ))
deriving DecidableEq

def Summary.empty : Summary := ⟨[], [], [], []⟩

/-- Faithful to `calculateSummary` (dhis2Data.js:465-727).  `rows` is an
`Option` so the `!rows` guard of the source is representable; the caller
passes `rows || []`. -/
def calculateSummary (headers : List Header) (rows : Option (List Row))
    (meta : MetaItems) (multiOrgUnitMode : Bool) : Summary :=
  match rows with
  | none => Summary.empty
  | some rs =>
    if rs.isEmpty then Summary.empty
    else
      let valueIndex := headers.findIdx? (fun h => h.name = "value")
      let deIndex := headers.findIdx? (fun h => h.name = "dx")
      let ouIndex := headers.findIdx? (fun h => h.name = "ou")
      let peIndex := headers.findIdx? (fun h => h.name = "pe")
      match valueIndex with
      | none => Summary.empty
      | some vi =>
        let g := rs.foldl
          (scanRow deIndex ouIndex peIndex (some vi) multiOrgUnitMode)
          GroupedData.empty
        { byElement := buildStatsMap meta g.byElement,
          orgUnitBreakdown :=
            if multiOrgUnitMode ∧ ¬ g.byOrgUnit.isEmpty then
              g.byOrgUnit.foldl
                (fun acc p =>
                  setAt (metaDisplayName meta p.1) (buildStatsMap meta p.2) acc)
                []
            else [],
          periodBreakdown :=
            if ¬ g.byPeriod.isEmpty then
              g.byPeriod.foldl
                (fun acc p =>
                  setAt (periodDisplayName meta p.1) (buildStatsMap meta p.2)
                    acc)
                []
            else [],
          timeSeriesData :=
            if ¬ g.byElementAndPeriod.isEmpty then
              buildTimeSeries meta g.byElementAndPeriod
            else [] }

/-- The standard analytics header layout the claims are stated over. -/
def stdHeaders : List Header :=
  [Header.mk "dx", Header.mk "pe", Header.mk "ou", Header.mk "value"]

/-- The slice of the `processedData` object assembled at the end of
`fetchDataForElements` (dhis2Data.js:193-216) that the claims are about:
`hasData = rows && rows.length > 0`, the `rows || []` defaulting, and
the attached summary `calculateSummary(headers, rows || [], metaData,
multiOrgUnitMode)`.  Fields the source merely carries through
(`headers`, `metaData`, `dataElements`, `dataType`, `childOrgUnits`,
`originalOrgUnit`) are omitted. -/
structure ProcessedData where
  rows : List Row
  hasData : Bool
  summary : Summary
deriving DecidableEq

def processResponseData (headers : List Header) (rows : Option (List Row))
    (meta : MetaItems) (multiOrgUnitMode : Bool) : ProcessedData :=
  let hasData := match rows with
    | none => false
    | some rs => !rs.isEmpty
  { rows := rows.getD [],
    hasData := hasData,
    summary :=
      calculateSummary headers (some (rows.getD [])) meta multiOrgUnitMode }

/-- Shared helper: without a `value` header, `calculateSummary` returns
the empty summary whatever the rows are (dhis2Data.js:471-478). -/
theorem calculateSummary_no_value (headers : List Header) (meta : MetaItems)
    (b : Bool) (rows : List Row) (hno : ∀ h ∈ headers, h.name ≠ "value") :
    calculateSummary headers (some rows) meta b = Summary.empty := by
  have hmiss : headers.findIdx? (fun h => h.name = "value") = none :=
    List.findIdx?_eq_none_iff.mpr (fun h hm => by simp [hno h hm])
  unfold calculateSummary
  rcases hrows : rows with _ | ⟨r, rs⟩
  · simp
  · simp [hmiss]

/-- C9: when the rows list is empty or absent, or the headers contain no
column named `value`, `calculateSummary` returns the empty summary and
never fails; a zero-row response flows through the fetch pipeline as a
normal result with `hasData = false`, `rows = []` and an empty summary. -/
theorem zeroRows_flow (headers : List Header) (meta : MetaItems) (b : Bool) :
    calculateSummary headers none meta b = Summary.empty ∧
    calculateSummary headers (some []) meta b = Summary.empty ∧
    ((∀ h ∈ headers, h.name ≠ "value") →
      ∀ rows : List Row,
        calculateSummary headers (some rows) meta b = Summary.empty) ∧
    (processResponseData headers none meta b).hasData = false ∧
    (processResponseData headers none meta b).rows = [] ∧
    (processResponseData headers none meta b).summary = Summary.empty ∧
    (processResponseData headers (some []) meta b).hasData = false ∧
    (processResponseData headers (some []) meta b).rows = [] ∧
    (processResponseData headers (some []) meta b).summary = Summary.empty := by
  refine ⟨rfl, rfl,
    fun hno rows => calculateSummary_no_value headers meta b rows hno,
    rfl, rfl, ?_, rfl, rfl, rfl⟩
  · simp [processResponseData, calculateSummary]

/-- Witness for C9's theorem: a headers list without a `value` column and
a nonempty row still give the empty summary, and the empty-rows pipeline
facts hold at a concrete instance. -/
theorem zeroRows_flow_witness :
    calculateSummary [Header.mk "dx", Header.mk "pe", Header.mk "ou"] none
        [] false = Summary.empty ∧
    calculateSummary [Header.mk "dx", Header.mk "pe", Header.mk "ou"]
        (some []) [] false = Summary.empty ∧
    calculateSummary [Header.mk "dx", Header.mk "pe", Header.mk "ou"]
        (some [["d1", "202401", "u1", "10"]]) [] false = Summary.empty := by
  have h := zeroRows_flow [Header.mk "dx", Header.mk "pe", Header.mk "ou"] [] false
  exact ⟨h.1, h.2.1, h.2.2.1 (by decide) [["d1", "202401", "u1", "10"]]⟩

/-- C3 (amended): for every non-empty value group, the reported median is
`toFixed2` of the exact central value of the sorted values when the count
is odd, and `toFixed2` of the mean of the two central sorted values when
the count is even — the central values being taken from any sorted
permutation of the group; in particular the median of `[10, 20, 30]` is
reported as `20` and the median of `[10, 20]` as `15` (both exact under
the 2-decimal rounding). -/
theorem median_central_value (values l : List ℚ) (hne : values ≠ [])
    (hperm : l.Perm values) (hsort : l.Sorted (fun a b : ℚ => a ≤ b)) :
    (computeStats values).median =
      toFixed2
        (if values.length % 2 = 0 then
          (l.getD (values.length / 2 - 1) 0 + l.getD (values.length / 2) 0) / 2
        else l.getD (values.length / 2) 0) ∧
    (computeStats [10, 20, 30]).median = 20 ∧
    (computeStats [10, 20]).median = 15 := by
  refine ⟨?_, ?_, ?_⟩
  · have hperm₂ :
        (List.insertionSort (fun a b : ℚ => a ≤ b) values).Perm l :=
      (List.perm_insertionSort _ values).trans hperm.symm
    have hsort₂ :
        (List.insertionSort (fun a b : ℚ => a ≤ b) values).Sorted
          (fun a b : ℚ => a ≤ b) :=
      List.sorted_insertionSort _ values
    have heq : List.insertionSort (fun a b : ℚ => a ≤ b) values = l :=
      List.eq_of_perm_of_sorted hperm₂ hsort₂ hsort
    have hlen : (List.insertionSort (fun a b : ℚ => a ≤ b) values).length =
        values.length :=
      (List.perm_insertionSort _ values).length_eq
    simp only [computeStats, heq, hperm.length_eq]
  · show toFixed2 _ = 20
    have : List.insertionSort (fun a b : ℚ => a ≤ b) [10, 20, 30] =
        [10, 20, 30] := by
      norm_num [List.insertionSort, List.orderedInsert]
    simp [computeStats, this, toFixed2]
    norm_num
  · show toFixed2 _ = 15
    have : List.insertionSort (fun a b : ℚ => a ≤ b) [10, 20] = [10, 20] := by
      norm_num [List.insertionSort, List.orderedInsert]
    simp [computeStats, this, toFixed2]
    norm_num

/-- Witness for C3's theorem on the concrete group `[10, 20]` with its
sorted arrangement. -/
theorem median_central_value_witness :
    ([10, 20] : List ℚ) ≠ [] ∧
    (computeStats [10, 20]).median =
      toFixed2
        (if ([10, 20] : List ℚ).length % 2 = 0 then
          (([10, 20] : List ℚ).getD (([10, 20] : List ℚ).length / 2 - 1) 0 +
              ([10, 20] : List ℚ).getD (([10, 20] : List ℚ).length / 2) 0) / 2
        else ([10, 20] : List ℚ).getD (([10, 20] : List ℚ).length / 2) 0) := by
  refine ⟨by simp, ?_⟩
  exact (median_central_value [10, 20] [10, 20] (by simp) (List.Perm.refl _)
    (by norm_num [List.Sorted])).1

unseal Rat.mul Rat.add Rat.inv Rat.sub in
/-- Counterexample to C3 as stated: for the one-element group `[10.125]`
(dx `"d1"`, a single row with value `"10.125"`), the summary reports
median `10.13` — the 2-decimal `toFixed` rounding — which is not the
exact central value `10.125`. -/
theorem median_exact_counterexample :
    (calculateSummary stdHeaders (some [["d1", "202401", "u1", "10.125"]])
        [] false).byElement =
      [("d1",
        { count := 1, min := 81 / 8, max := 81 / 8, mean := 1013 / 100,
          median := 1013 / 100, sum := 1013 / 100 })] ∧
    (1013 : ℚ) / 100 ≠ 81 / 8 := by decide

theorem data_append : ∀ (a b : String), (a ++ b).data = a.data ++ b.data
  | ⟨_⟩, ⟨_⟩ => rfl

/-- Org-unit argument of `fetchDataForElements`: the `id`, the
`isSpecial` marker the selection UI sets for the `USER_ORGUNIT*` tokens,
and the `includeChildOrgUnits` flag.  `displayName`/`path` are not read
by the embedded block. -/
structure OrgUnit where
  id : String
  isSpecial : Bool
  includeChildOrgUnits : Bool
deriving DecidableEq

/-- A child unit returned by the metadata fetch; of the requested fields
(`id`, `displayName`, `path`, `level`, `parent`, groups) the resolution
block only reads `id`. -/
structure ChildOrgUnit where
  id : String
deriving DecidableEq

inductive LogLevel
  | info
  | warn
deriving DecidableEq

/-- Result of the org-unit handling block of `fetchDataForElements`
(dhis2Data.js:107-149): the `ou` dimension, the `multiOrgUnitMode` flag,
the retained child list, and the console notes the block emits with
their level (`console.log` = info, `console.warn` = warn). -/
structure OrgUnitResolution where
  ouDimension : String
  multiOrgUnitMode : Bool
  childOrgUnits : List ChildOrgUnit
  notes : List (LogLevel × String)
deriving DecidableEq

/-- Faithful to dhis2Data.js:107-149.  The child-unit fetch
`engine.query(childOrgUnitsQuery)` is passed in as its outcome:
`Except.error` models a rejected query (caught by the `catch` at 137),
and the inner `Option` models `childResponse.results.children || []`. -/
def resolveOrgUnit (orgUnit : OrgUnit)
    (childFetch : Except String (Option (List ChildOrgUnit))) :
    OrgUnitResolution :=
  if orgUnit.includeChildOrgUnits ∧ orgUnit.isSpecial = false then
    match childFetch with
    | Except.ok res =>
      let childOrgUnits := res.getD []
      if childOrgUnits.length > 0 then
        { ouDimension := joinSemicolon (childOrgUnits.map (fun c => c.id)),
          multiOrgUnitMode := true,
          childOrgUnits := childOrgUnits,
          notes := [(LogLevel.info,
            "Multi-org unit mode: Including " ++
              natRepr childOrgUnits.length ++ " child org units")] }
      else
        { ouDimension := orgUnit.id,
          multiOrgUnitMode := false,
          childOrgUnits := [],
          notes := [(LogLevel.info,
            "No child org units found, using single org unit mode")] }
    | Except.error _ =>
      { ouDimension := orgUnit.id,
        multiOrgUnitMode := false,
        childOrgUnits := [],
        notes := [(LogLevel.warn,
          "Failed to fetch child org units, falling back to single org unit")] }
  else if orgUnit.isSpecial then
    { ouDimension := orgUnit.id,
      multiOrgUnitMode :=
        orgUnit.id = "USER_ORGUNIT_CHILDREN" ∨
          orgUnit.id = "USER_ORGUNIT_GRANDCHILDREN",
      childOrgUnits := [],
      notes := [] }
  else
    { ouDimension := orgUnit.id,
      multiOrgUnitMode := false,
      childOrgUnits := [],
      notes := [] }

/-- C5 (amended): for every concrete (non-special) org unit selection
with `includeChildOrgUnits = true` whose child-unit fetch succeeds but
returns no children, the resolution degrades to single-unit mode — the
`ou` dimension is the unit's own id and `multiOrgUnitMode` is false —
with only an informational console note (`console.log`, not a
warning-level one) rather than a fatal error. -/
theorem childless_degrade (u : OrgUnit)
    (res : Option (List ChildOrgUnit))
    (hspec : u.isSpecial = false) (hinc : u.includeChildOrgUnits = true)
    (hres : res.getD [] = []) :
    (resolveOrgUnit u (Except.ok res)).ouDimension = u.id ∧
    (resolveOrgUnit u (Except.ok res)).multiOrgUnitMode = false ∧
    (resolveOrgUnit u (Except.ok res)).notes =
      [(LogLevel.info,
        "No child org units found, using single org unit mode")] := by
  simp [resolveOrgUnit, hspec, hinc, hres]

/-- Witness for C5's theorem at the concrete unit `"X"` with an empty
children list. -/
theorem childless_degrade_witness :
    ((OrgUnit.mk "X" false true).isSpecial = false ∧
     (OrgUnit.mk "X" false true).includeChildOrgUnits = true ∧
     (some ([] : List ChildOrgUnit)).getD [] = []) ∧
    ((resolveOrgUnit (OrgUnit.mk "X" false true)
        (Except.ok (some []))).ouDimension = (OrgUnit.mk "X" false true).id ∧
     (resolveOrgUnit (OrgUnit.mk "X" false true)
        (Except.ok (some []))).multiOrgUnitMode = false ∧
     (resolveOrgUnit (OrgUnit.mk "X" false true)
        (Except.ok (some []))).notes =
      [(LogLevel.info,
        "No child org units found, using single org unit mode")]) :=
  ⟨⟨by decide, by decide, by decide⟩,
    childless_degrade (OrgUnit.mk "X" false true) (some [])
      (by decide) (by decide) (by decide)⟩

/-- Counterexample to C5 as stated: at the concrete childless unit `"X"`
the resolution does degrade, but the only note emitted is an
informational `console.log` — no warning-level note exists — so the
claim's "warning-level note" is wrong about the level. -/
theorem childless_degrade_warning_counterexample :
    (resolveOrgUnit (OrgUnit.mk "X" false true)
      (Except.ok (some []))).ouDimension = "X" ∧
    (resolveOrgUnit (OrgUnit.mk "X" false true)
      (Except.ok (some []))).multiOrgUnitMode = false ∧
    (resolveOrgUnit (OrgUnit.mk "X" false true)
      (Except.ok (some []))).notes ≠ [] ∧
    ((resolveOrgUnit (OrgUnit.mk "X" false true)
      (Except.ok (some []))).notes.all
        (fun e => e.1 ≠ LogLevel.warn)) = true := by
  decide

/-- One element of the `dataElements` argument of
`fetchDataForElements`: either a bare identifier string or an object; of
an object the source reads only the `id`, `value` and `dataElementId`
properties, plus the default string coercion when an object reaches
`Array.prototype.join`. -/
inductive DataElement
  | str (s : String)
  | obj (id value dataElementId : Option String)
deriving DecidableEq

/-- JavaScript truthiness of an optional string property (absent and
empty-string are falsy). -/
def truthy : Option String → Bool
  | none => false
  | some s => s != ""

/-- String coercion applied by `Array.prototype.join` to each element of
`dataElements.join(';')` (dhis2Data.js:68): a string joins as itself and
a plain object joins as "[object Object]". -/
def jsJoinCoerce : DataElement → String
  | DataElement.str s => s
  | DataElement.obj _ _ _ => "[object Object]"

/-- `dataElements.map(de => de.id)` as joined (dhis2Data.js:73): reading
`.id` from a bare string gives `undefined`, which `join` renders as the
empty string. -/
def idOrEmpty : DataElement → String
  | DataElement.str _ => ""
  | DataElement.obj i _ _ => i.getD ""

/-- `dataElements.map(de => de.value)` as joined (dhis2Data.js:78). -/
def valueOrEmpty : DataElement → String
  | DataElement.str _ => ""
  | DataElement.obj _ v _ => v.getD ""

/-- The last-resort chain `de.id || de.value || de.dataElementId || de`
(dhis2Data.js:85-88) combined with the `.filter(id => id)` truthiness
check: `none` means the chain result is falsy and the element is
dropped; `some s` is the string the subsequent `join` uses (an object
that reaches the end of the chain is truthy and joins as
"[object Object]"). -/
def lastResortId : DataElement → Option String
  | DataElement.str s => if s = "" then none else some s
  | DataElement.obj i v d =>
    if truthy i then some (i.getD "")
    else if truthy v then some (v.getD "")
    else if truthy d then some (d.getD "")
    else some "[object Object]"

/-- JavaScript `String.prototype.trim` (over the character list). -/
def jsTrim (s : String) : String :=
  String.mk
    (((s.data.dropWhile Char.isWhitespace).reverse.dropWhile
        Char.isWhitespace).reverse)

/-- The dimension validation `if (!deIds || deIds.trim() === '' ||
deIds === ';')` of dhis2Data.js:98-101. -/
def validateDeIds (deIds : String) : Except String String :=
  if deIds = "" ∨ jsTrim deIds = "" ∨ deIds = ";" then
    Except.error "Empty data element IDs. Please select at least one valid item."
  else Except.ok deIds

/-- The item-selector normalization of `fetchDataForElements`: the
emptiness validation (dhis2Data.js:34-36) followed by the dx-id
extraction and validation (dhis2Data.js:57-104).  The shape dispatch
inspects only `dataElements[0]`. -/
def normalizeDataElements : List DataElement → Except String String
  | [] => Except.error "At least one data element is required"
  | de₀ :: rest =>
    match de₀ with
    | DataElement.str _ =>
      validateDeIds (joinSemicolon ((de₀ :: rest).map jsJoinCoerce))
    | DataElement.obj i v _ =>
      if truthy i then
        validateDeIds (joinSemicolon ((de₀ :: rest).map idOrEmpty))
      else if truthy v then
        validateDeIds (joinSemicolon ((de₀ :: rest).map valueOrEmpty))
      else
        let possibleIds := (de₀ :: rest).filterMap lastResortId
        if possibleIds.length > 0 then
          validateDeIds (joinSemicolon possibleIds)
        else Except.error "Invalid data elements format"

theorem mem_dropWhile_of_not {p : Char → Bool} {c : Char} :
    ∀ {cs : List Char}, c ∈ cs → p c = false → c ∈ cs.dropWhile p := by
  intro cs
  induction cs with
  | nil => intro h; cases h
  | cons a as ih =>
    intro hmem hpc
    rw [List.dropWhile_cons]
    by_cases hpa : p a = true
    · rcases List.mem_cons.mp hmem with rfl | hmem₂
      · rw [hpa] at hpc; cases hpc
      · simp only [hpa, if_true]
        exact ih hmem₂ hpc
    · simp only [Bool.not_eq_true] at hpa
      simp [hpa]
      exact List.mem_cons.mp hmem

theorem jsTrim_ne_empty {s : String} {c : Char} (hc : c ∈ s.data)
    (hws : c.isWhitespace = false) : jsTrim s ≠ "" := by
  intro hcontra
  have hdata : (((s.data.dropWhile Char.isWhitespace).reverse.dropWhile
      Char.isWhitespace).reverse) = [] :=
    congrArg String.data hcontra
  have h₁ : c ∈ s.data.dropWhile Char.isWhitespace :=
    mem_dropWhile_of_not hc hws
  have h₂ : c ∈ (s.data.dropWhile Char.isWhitespace).reverse :=
    List.mem_reverse.mpr h₁
  have h₃ : c ∈ ((s.data.dropWhile Char.isWhitespace).reverse.dropWhile
      Char.isWhitespace) :=
    mem_dropWhile_of_not h₂ hws
  have h₄ : c ∈ ((s.data.dropWhile Char.isWhitespace).reverse.dropWhile
      Char.isWhitespace).reverse :=
    List.mem_reverse.mpr h₃
  rw [hdata] at h₄
  cases h₄

theorem joinSemicolon_cons_data :
    ∀ (s : String) (rest : List String), rest ≠ [] →
      (joinSemicolon (s :: rest)).data =
        s.data ++ ';' :: (joinSemicolon rest).data := by
  intro s rest hne
  match rest with
  | t :: r =>
    show ((s ++ ";") ++ joinSemicolon (t :: r)).data = _
    rw [data_append, data_append]
    simp

/-- C6: normalization is shape-insensitive on singleton inputs — `["a"]`,
`[{id:"a"}]` and `[{value:"a"}]` all produce the dx dimension `"a"` —
it passes an already-normalized array of bare identifier strings through
unchanged (idempotence), and an empty input array fails with a
descriptive error rather than being silently skipped. -/
theorem itemSelector_idempotent_shapes (ss : List String) (hne : ss ≠ [])
    (hbare : ∀ s ∈ ss, s ≠ "" ∧
      ∀ c ∈ s.data, c.isWhitespace = false ∧ c ≠ ';') :
    normalizeDataElements (ss.map DataElement.str) =
      Except.ok (joinSemicolon ss) ∧
    normalizeDataElements [DataElement.str "a"] = Except.ok "a" ∧
    normalizeDataElements [DataElement.obj (some "a") none none] =
      Except.ok "a" ∧
    normalizeDataElements [DataElement.obj none (some "a") none] =
      Except.ok "a" ∧
    normalizeDataElements ([] : List DataElement) =
      Except.error "At least one data element is required" := by
  refine ⟨?_, rfl, rfl, rfl, rfl⟩
  match ss, hne with
  | s₀ :: rest, _ =>
    have hcoerce : (DataElement.str s₀ :: rest.map DataElement.str).map
        jsJoinCoerce = s₀ :: rest := by
      simp only [List.map_cons, List.map_map]
      have hfun : jsJoinCoerce ∘ DataElement.str = id := by
        funext x; rfl
      rw [hfun, List.map_id]
      rfl
    show validateDeIds (joinSemicolon ((DataElement.str s₀ ::
        rest.map DataElement.str).map jsJoinCoerce)) = _
    rw [hcoerce]
    obtain ⟨hs₀ne, hs₀chars⟩ := hbare s₀ (by simp)
    have hs₀data : s₀.data ≠ [] := by
      intro h
      exact hs₀ne (by cases s₀; simp at h; simp [h])
    obtain ⟨c₀, cs₀, hc₀⟩ : ∃ c₀ cs₀, s₀.data = c₀ :: cs₀ := by
      match hd : s₀.data with
      | [] => exact absurd hd hs₀data
      | c :: cs => exact ⟨c, cs, rfl⟩
    have hc₀mem : c₀ ∈ s₀.data := by rw [hc₀]; simp
    obtain ⟨hc₀ws, hc₀semi⟩ := hs₀chars c₀ hc₀mem
    have hjoin_data : ∃ t, (joinSemicolon (s₀ :: rest)).data =
        c₀ :: (cs₀ ++ t) := by
      match rest with
      | [] => exact ⟨[], by show s₀.data = _; rw [hc₀]; simp⟩
      | t :: r =>
        refine ⟨';' :: (joinSemicolon (t :: r)).data, ?_⟩
        rw [joinSemicolon_cons_data s₀ (t :: r) (by simp), hc₀]
        simp
    obtain ⟨t, hjd⟩ := hjoin_data
    have hmem : c₀ ∈ (joinSemicolon (s₀ :: rest)).data := by
      rw [hjd]; simp
    unfold validateDeIds
    rw [if_neg]
    push_neg
    refine ⟨?_, jsTrim_ne_empty hmem hc₀ws, ?_⟩
    · intro h
      have := congrArg String.data h
      rw [hjd] at this
      simp at this
    · intro h
      have := congrArg String.data h
      rw [hjd] at this
      have : c₀ = ';' := by
        have hsemi : (";" : String).data = [';'] := rfl
        rw [hsemi] at this
        exact (List.cons.injEq _ _ _ _).mp this |>.1
      exact hc₀semi this

/-- Witness for C6's theorem on the already-normalized two-identifier
array `["a", "b"]`. -/
theorem itemSelector_idempotent_shapes_witness :
    ((["a", "b"] : List String) ≠ [] ∧
      ∀ s ∈ (["a", "b"] : List String), s ≠ "" ∧
        ∀ c ∈ s.data, c.isWhitespace = false ∧ c ≠ ';') ∧
    normalizeDataElements ((["a", "b"] : List String).map DataElement.str) =
      Except.ok (joinSemicolon ["a", "b"]) :=
  ⟨⟨by decide, by decide⟩,
    (itemSelector_idempotent_shapes ["a", "b"] (by decide) (by decide)).1⟩

/-- C10: the shape dispatch of item-selector normalization inspects only
the first element — a string head sends every element through the join
coercion unchanged (later non-string elements are NOT normalized: their
ids never reach the dimension), and a head with a truthy `.id` makes the
code read `.id` from every element regardless of the later elements'
shapes (later `{value}` objects contribute the empty string). -/
theorem shape_detection_first_element :
    (∀ (s : String) (rest : List DataElement),
      normalizeDataElements (DataElement.str s :: rest) =
        validateDeIds
          (joinSemicolon ((DataElement.str s :: rest).map jsJoinCoerce))) ∧
    (∀ (i : String) (v d : Option String) (rest : List DataElement),
      i ≠ "" →
      normalizeDataElements (DataElement.obj (some i) v d :: rest) =
        validateDeIds
          (joinSemicolon
            ((DataElement.obj (some i) v d :: rest).map idOrEmpty))) ∧
    normalizeDataElements
        [DataElement.str "a", DataElement.obj (some "b") none none] =
      Except.ok "a;[object Object]" ∧
    normalizeDataElements
        [DataElement.obj (some "a") none none,
         DataElement.obj none (some "b") none] =
      Except.ok "a;" := by
  refine ⟨fun s rest => rfl, ?_, rfl, rfl⟩
  intro i v d rest hi
  have htruthy : truthy (some i) = true := by
    simp [truthy, hi]
  simp [normalizeDataElements, htruthy]

/-- Witness for C10's theorem: the first-element dispatch instantiated at
a mixed-shape list with a truthy head id. -/
theorem shape_detection_first_element_witness :
    ("a" : String) ≠ "" ∧
    normalizeDataElements
        [DataElement.obj (some "a") none none, DataElement.str "x"] =
      validateDeIds
        (joinSemicolon
          ([DataElement.obj (some "a") none none,
            DataElement.str "x"].map idOrEmpty)) :=
  ⟨by decide,
    (shape_detection_first_element).2.1 "a" none none [DataElement.str "x"]
      (by decide)⟩

/-- JavaScript `row[i]` where the result is consumed as a string (object
key, `Set` member, or strict comparison): an out-of-range access gives
`undefined`, whose string coercion is "undefined"; `parseFloat` of it is
the NaN case, which `parseFloatStr` also assigns to "undefined". -/
def jsCellStr (row : Row) (i : Nat) : String := (row.get? i).getD "undefined"

/-- JavaScript `Array.from(new Set(xs))`: the distinct values in
first-occurrence order. -/
def dedupFirst : List String → List String
  | [] => []
  | x :: xs => x :: (dedupFirst xs).filter (fun y => y ≠ x)

/-- A calendar date standing for the `new Date()` reading used by the
dashboard's rolling-window filter (`month` is 1-based, as in
`getMonth() + 1`). -/
structure JsDate where
  year : Nat
  month : Nat
  day : Nat
deriving DecidableEq

/-- The `getOneYearAgoAsYYYYMM` helper (part_003:158-162):
`parseInt` of the previous year formatted with the zero-padded current
month. -/
def oneYearAgoYYYYMM (now : JsDate) : Nat :=
  digitsToNat (natDigits (now.year - 1) ++ pad2List now.month)

/-- JavaScript `parseInt` on the leading digits of a string; `none` is
the NaN case (no leading digit). -/
def jsParseIntOpt (s : String) : Option Nat :=
  let ds := s.data.takeWhile Char.isDigit
  if ds.isEmpty then none else some (digitsToNat ds)

/-- Parse of `new Date(s)` for strict `YYYY-MM-DD` strings; any other
shape is modelled as an invalid date (`none`, the `isNaN(date)` case).
Valid dates compare as (year, month, day) triples, which matches
timestamp order. -/
def parseIsoDate (s : String) : Option (Nat × Nat × Nat) :=
  let cs := s.data
  if cs.length = 10 ∧ (cs.take 4).all Char.isDigit ∧ cs.getD 4 ' ' = '-' ∧
      ((cs.drop 5).take 2).all Char.isDigit ∧ cs.getD 7 ' ' = '-' ∧
      ((cs.drop 8).take 2).all Char.isDigit then
    some (digitsToNat (cs.take 4), digitsToNat ((cs.drop 5).take 2),
      digitsToNat ((cs.drop 8).take 2))
  else none

/-- Chronological comparison of date triples. -/
def tripleLe (a b : Nat × Nat × Nat) : Bool :=
  if a.1 ≠ b.1 then decide (a.1 < b.1)
  else if a.2.1 ≠ b.2.1 then decide (a.2.1 < b.2.1)
  else decide (a.2.2 ≤ b.2.2)

/-- The `uniquePeriods` computation of `processDataForVisualization`
(part_003:153-199): distinct periods in first-encounter order, then —
only when the active selection is `LAST_12_MONTHS` — the
format-dependent filter and chronological sort keyed on the FIRST
distinct period's shape: ISO dates (contains a dash), `YYYYMM`
(6 characters and `parseInt` succeeds), or the `localeCompare`
fallback. -/
def finalUniquePeriods (selectedPeriod : String) (now : JsDate)
    (periods : List String) : List String :=
  let uniquePeriods := dedupFirst periods
  if selectedPeriod = "LAST_12_MONTHS" then
    match uniquePeriods with
    | [] => uniquePeriods
    | p₀ :: _ =>
      if p₀.data.contains '-' then
        let filtered := uniquePeriods.filter (fun p =>
          match parseIsoDate p with
          | none => false
          | some t => tripleLe (now.year - 1, now.month, now.day) t)
        List.insertionSort
          (fun a b =>
            tripleLe ((parseIsoDate a).getD (0, 0, 0))
              ((parseIsoDate b).getD (0, 0, 0)) = true)
          filtered
      else if p₀.data.length = 6 ∧ (jsParseIntOpt p₀).isSome then
        let filtered := uniquePeriods.filter (fun p =>
          match jsParseIntOpt p with
          | none => false
          | some v => oneYearAgoYYYYMM now ≤ v)
        List.insertionSort
          (fun a b => (jsParseIntOpt a).getD 0 ≤ (jsParseIntOpt b).getD 0)
          filtered
      else
        List.insertionSort (fun a b => jsStrLe a b = true) uniquePeriods
  else uniquePeriods

/-- The dashboard's local `formatPeriodId` (part_003:209-218): a
six-character id becomes `YYYY-MM`; anything else is returned
unchanged. -/
def formatPeriodIdChart (periodId : String) : String :=
  if periodId.data.length = 6 then
    String.mk (periodId.data.take 4) ++ "-" ++
      String.mk ((periodId.data.drop 4).take 2)
  else periodId

/-- Chart label of a period (part_003:201-206):
`metaData.items[periodId] ? metaData.items[periodId].name :
formatPeriodId(periodId)` — note: no `||` fallback on the name here. -/
def chartPeriodLabel (meta : MetaItems) (periodId : String) : String :=
  match lookupMeta meta periodId with
  | some n => n
  | none => formatPeriodIdChart periodId

/-- One chart dataset.  The random `backgroundColor`/`borderColor`
fields and the constant `borderWidth`/`fill` are presentation-only and
omitted. -/
structure Dataset where
  label : String
  data : List ℚ
deriving DecidableEq

structure Chart where
  labels : List String
  datasets : List Dataset
deriving DecidableEq

/-- The slice of the `data` prop read by the dashboard's chart path. -/
structure VizData where
  headers : Option (List Header)
  rows : Option (List Row)
  metaData : MetaItems
  multiOrgUnitMode : Bool

/-- Faithful to the validation and chart-projection portion of the
dashboard's `processDataForVisualization` (part_003:101-304).  The
`setError` calls are modelled as `Except.error` carrying the message.
`selLookup` stands for the
`selectedDataElements.find(de => de.id === deId || de.value === deId)`
name fallback of part_003:268-277 (returning the resolved
`displayName || label || deId` when the element is found); `selOu` is
`selectedOrgUnit?.id`. -/
def processDataForVisualization (selectedPeriod : String) (now : JsDate)
    (selLookup : String → Option String) (selOu : Option String)
    (data : Option VizData) : Except String Chart :=
  match data with
  | none => Except.error "No data received from DHIS2"
  | some d =>
    match d.headers with
    | none => Except.error "Data is missing headers structure"
    | some headers =>
      match d.rows with
      | none =>
        Except.error "No data rows available for the selected criteria. Try selecting different data elements or a different time period."
      | some rows =>
        if rows.isEmpty then
          Except.error "No data rows available for the selected criteria. Try selecting different data elements or a different time period."
        else
          match headers.findIdx? (fun h => h.name = "pe"),
              headers.findIdx? (fun h => h.name = "dx"),
              headers.findIdx? (fun h => h.name = "ou"),
              headers.findIdx? (fun h => h.name = "value") with
          | some pi, some di, some oi, some vi =>
            let uniquePeriods :=
              finalUniquePeriods selectedPeriod now
                (rows.map (fun r => jsCellStr r pi))
            let labels := uniquePeriods.map (chartPeriodLabel d.metaData)
            let isMultiOrgUnit := d.multiOrgUnitMode
            let uniqueDataElements :=
              dedupFirst (rows.map (fun r => jsCellStr r di))
            let uniqueOrgUnits :=
              if isMultiOrgUnit then
                dedupFirst (rows.map (fun r => jsCellStr r oi))
              else [selOu.getD "undefined"]
            let datasets :=
              if isMultiOrgUnit ∧ uniqueOrgUnits.length > 1 then
                uniqueOrgUnits.map (fun ouId =>
                  let orgUnitName :=
                    match lookupMeta d.metaData ouId with
                    | some n => n
                    | none => ouId
                  let orgUnitRows :=
                    rows.filter (fun r => jsCellStr r oi = ouId)
                  let values := uniquePeriods.map (fun periodId =>
                    (orgUnitRows.filter
                        (fun r => jsCellStr r pi = periodId)).foldl
                      (fun sum r =>
                        sum + ((parseFloatStr (jsCellStr r vi)).getD 0))
                      0)
                  Dataset.mk orgUnitName values)
              else
                uniqueDataElements.map (fun deId =>
                  let deDisplayName :=
                    match lookupMeta d.metaData deId with
                    | some n => n
                    | none => (selLookup deId).getD deId
                  let deRows := rows.filter (fun r => jsCellStr r di = deId)
                  let values := uniquePeriods.map (fun periodId =>
                    match deRows.find? (fun r => jsCellStr r pi = periodId) with
                    | some r => (parseFloatStr (jsCellStr r vi)).getD 0
                    | none => 0)
                  Dataset.mk deDisplayName values)
            Except.ok (Chart.mk labels datasets)
          | _, _, _, _ =>
            Except.error "Data structure from DHIS2 is not in the expected format. Missing required columns."

/-- C8 (amended): for every analytics response whose headers lack the
required `ou` column, the dashboard's normalization fails with the fatal
malformed-response error — whose message is the generic
"Missing required columns." text, NOT naming the missing column —
instead of producing a chart; and the summary path, when the `value`
column is the one missing, silently returns an empty summary rather than
failing. -/
theorem missingColumn_error (sp : String) (now : JsDate)
    (sel : String → Option String) (selOu : Option String)
    (headers : List Header) (rows : List Row) (meta : MetaItems) (b : Bool)
    (hne : rows ≠ []) (hmiss : ∀ h ∈ headers, h.name ≠ "ou") :
    processDataForVisualization sp now sel selOu
        (some ⟨some headers, some rows, meta, b⟩) =
      Except.error "Data structure from DHIS2 is not in the expected format. Missing required columns." ∧
    ((∀ h ∈ headers, h.name ≠ "value") → ∀ rows₂ : List Row,
      calculateSummary headers (some rows₂) meta b = Summary.empty) := by
  have hou : headers.findIdx? (fun h => h.name = "ou") = none :=
    List.findIdx?_eq_none_iff.mpr (fun h hm => by simp [hmiss h hm])
  refine ⟨?_, fun hno rows₂ => calculateSummary_no_value headers meta b rows₂ hno⟩
  unfold processDataForVisualization
  have hrows : rows.isEmpty = false := by
    rcases rows with _ | _
    · exact absurd rfl hne
    · rfl
  rcases hp : headers.findIdx? (fun h => h.name = "pe") with _ | p <;>
    rcases hd : headers.findIdx? (fun h => h.name = "dx") with _ | d <;>
      rcases hv : headers.findIdx? (fun h => h.name = "value") with _ | v <;>
        simp [hp, hd, hou, hv, hrows]

/-- Witness for C8's theorem at a concrete response missing the `ou`
header. -/
theorem missingColumn_error_witness :
    ((["d1", "202401", "10"] :: [] : List Row) ≠ [] ∧
      ∀ h ∈ [Header.mk "dx", Header.mk "pe", Header.mk "value"],
        h.name ≠ "ou") ∧
    processDataForVisualization "THIS_YEAR" (JsDate.mk 2025 1 1)
        (fun _ => none) none
        (some ⟨some [Header.mk "dx", Header.mk "pe", Header.mk "value"],
          some [["d1", "202401", "10"]], [], false⟩) =
      Except.error "Data structure from DHIS2 is not in the expected format. Missing required columns." :=
  ⟨⟨by decide, by decide⟩,
    (missingColumn_error "THIS_YEAR" (JsDate.mk 2025 1 1) (fun _ => none)
      none [Header.mk "dx", Header.mk "pe", Header.mk "value"]
      [["d1", "202401", "10"]] [] false (by decide) (by decide)).1⟩

/-- Counterexample to C8 as stated: a response missing `ou` and a
response missing `pe` produce the IDENTICAL error message, so the error
cannot be naming the missing column; and when the missing column is
`value`, `calculateSummary` does not fail at all — it silently returns
the empty summary. -/
theorem missingColumn_names_counterexample :
    processDataForVisualization "THIS_YEAR" (JsDate.mk 2025 1 1)
        (fun _ => none) none
        (some ⟨some [Header.mk "dx", Header.mk "pe", Header.mk "value"],
          some [["d1", "202401", "10"]], [], false⟩) =
      Except.error "Data structure from DHIS2 is not in the expected format. Missing required columns." ∧
    processDataForVisualization "THIS_YEAR" (JsDate.mk 2025 1 1)
        (fun _ => none) none
        (some ⟨some [Header.mk "dx", Header.mk "ou", Header.mk "value"],
          some [["d1", "u1", "10"]], [], false⟩) =
      Except.error "Data structure from DHIS2 is not in the expected format. Missing required columns." ∧
    calculateSummary [Header.mk "dx", Header.mk "pe", Header.mk "ou"]
        (some [["d1", "202401", "u1"]]) [] false = Summary.empty :=
  ⟨rfl, rfl, rfl⟩

/-- C4: with `multiOrgUnitMode = true` and response rows covering
exactly 2 distinct org units, the chart projection produces exactly 2
datasets (one per org unit), each of length equal to the number of
distinct period labels — which is 2 when 2 distinct periods are present
and the rolling-window re-sort is not active — and substitutes 0 for
every (org unit, period) combination that has no matching row, so all
datasets share the same label-axis length. -/
theorem multiOrgUnit_chart (sp : String) (now : JsDate)
    (sel : String → Option String) (selOu : Option String)
    (rows : List Row) (meta : MetaItems)
    (hne : rows ≠ [])
    (hou2 : (dedupFirst (rows.map (fun r => jsCellStr r 2))).length = 2)
    (hpe2 : (dedupFirst (rows.map (fun r => jsCellStr r 1))).length = 2)
    (hdx1 : (dedupFirst (rows.map (fun r => jsCellStr r 0))).length = 1) :
    ∃ chart : Chart,
      processDataForVisualization sp now sel selOu
          (some (VizData.mk (some stdHeaders) (some rows) meta true)) =
        Except.ok chart ∧
      chart.datasets.length = 2 ∧
      (∀ ds ∈ chart.datasets, ds.data.length = chart.labels.length) ∧
      (sp ≠ "LAST_12_MONTHS" → chart.labels.length = 2) ∧
      (∀ i j : Nat, i < chart.datasets.length → j < chart.labels.length →
        rows.filter (fun r => decide
            (jsCellStr r 2 =
              (dedupFirst (rows.map (fun r => jsCellStr r 2))).getD i
                "undefined" ∧
            jsCellStr r 1 =
              (finalUniquePeriods sp now
                (rows.map (fun r => jsCellStr r 1))).getD j "undefined")) =
          [] →
        (chart.datasets.getD i (Dataset.mk "" [])).data.getD j 1 = 0) := by
  have hrowsne : rows.isEmpty = false := by
    rcases rows with _ | _
    · exact absurd rfl hne
    · rfl
  have hpe : stdHeaders.findIdx? (fun h => h.name = "pe") = some 1 := rfl
  have hdx : stdHeaders.findIdx? (fun h => h.name = "dx") = some 0 := rfl
  have hou : stdHeaders.findIdx? (fun h => h.name = "ou") = some 2 := rfl
  have hval : stdHeaders.findIdx? (fun h => h.name = "value") = some 3 := rfl
  set OUs := dedupFirst (rows.map (fun r => jsCellStr r 2)) with hOUs
  set Ps := finalUniquePeriods sp now (rows.map (fun r => jsCellStr r 1))
    with hPs
  have hproc :
      processDataForVisualization sp now sel selOu
          (some (VizData.mk (some stdHeaders) (some rows) meta true)) =
        Except.ok (Chart.mk
          (Ps.map (chartPeriodLabel meta))
          (OUs.map (fun ouId =>
            Dataset.mk
              (match lookupMeta meta ouId with
                | some n => n
                | none => ouId)
              (Ps.map (fun periodId =>
                ((rows.filter (fun r => jsCellStr r 2 = ouId)).filter
                    (fun r => jsCellStr r 1 = periodId)).foldl
                  (fun sum r =>
                    sum + ((parseFloatStr (jsCellStr r 3)).getD 0)) 0))))) := by
    unfold processDataForVisualization
    simp only [hpe, hdx, hou, hval, hrowsne, Bool.false_eq_true, if_false]
    rw [if_pos]
    · rfl
    · refine ⟨trivial, ?_⟩
      rw [if_pos trivial, hou2]
      norm_num
  refine ⟨_, hproc, ?_, ?_, ?_, ?_⟩
  · dsimp only
    simp only [List.length_map]
    exact hou2
  · intro ds hds
    dsimp only at hds ⊢
    rcases List.mem_map.mp hds with ⟨ouId, _, rfl⟩
    simp
  · intro hsp
    dsimp only
    simp only [List.length_map, hPs, finalUniquePeriods, if_neg hsp]
    exact hpe2
  · intro i j hi hj hfilter
    dsimp only at hi hj ⊢
    simp only [List.length_map] at hi hj
    have hi₂ : i < OUs.length := hi
    have hj₂ : j < Ps.length := hj
    have hgetDS :
        (OUs.map (fun ouId =>
          Dataset.mk
            (match lookupMeta meta ouId with
              | some n => n
              | none => ouId)
            (Ps.map (fun periodId =>
              ((rows.filter (fun r => jsCellStr r 2 = ouId)).filter
                  (fun r => jsCellStr r 1 = periodId)).foldl
                (fun sum r =>
                  sum + ((parseFloatStr (jsCellStr r 3)).getD 0)) 0)))).getD
          i (Dataset.mk "" []) =
        Dataset.mk
          (match lookupMeta meta (OUs.getD i "undefined") with
            | some n => n
            | none => OUs.getD i "undefined")
          (Ps.map (fun periodId =>
            ((rows.filter
                (fun r => jsCellStr r 2 = OUs.getD i "undefined")).filter
                (fun r => jsCellStr r 1 = periodId)).foldl
              (fun sum r =>
                sum + ((parseFloatStr (jsCellStr r 3)).getD 0)) 0)) := by
      rw [List.getD_eq_getElem?_getD, List.getElem?_map,
        List.getElem?_eq_getElem hi₂, List.getD_eq_getElem?_getD,
        List.getElem?_eq_getElem hi₂]
      rfl
    rw [hgetDS]
    rw [List.getD_eq_getElem?_getD, List.getElem?_map,
      List.getElem?_eq_getElem hj₂]
    simp only [Option.map_some', Option.getD_some]
    have hempt :
        (rows.filter (fun r => jsCellStr r 2 = OUs.getD i "undefined")).filter
            (fun r => jsCellStr r 1 = Ps[j]) = [] := by
      rw [List.filter_filter]
      rw [show Ps[j] = Ps.getD j "undefined" by
        rw [List.getD_eq_getElem?_getD, List.getElem?_eq_getElem hj₂]; rfl]
      rw [← hfilter]
      apply List.filter_congr
      intro r _
      simp [Bool.and_comm]
    rw [hempt]
    rfl

/-- Witness for C4's theorem: 2 org units (`A`, `B`) over 2 periods for
1 item where `(B, p2)` has no row; the chart has 2 datasets of length 2
and dataset `B` is zero-filled at `p2`. -/
theorem multiOrgUnit_chart_witness :
    (([["d", "p1", "A", "1"], ["d", "p2", "A", "2"], ["d", "p1", "B", "3"]] :
        List Row) ≠ [] ∧
      (dedupFirst
        (([["d", "p1", "A", "1"], ["d", "p2", "A", "2"],
            ["d", "p1", "B", "3"]] : List Row).map
          (fun r => jsCellStr r 2))).length = 2 ∧
      (dedupFirst
        (([["d", "p1", "A", "1"], ["d", "p2", "A", "2"],
            ["d", "p1", "B", "3"]] : List Row).map
          (fun r => jsCellStr r 1))).length = 2 ∧
      (dedupFirst
        (([["d", "p1", "A", "1"], ["d", "p2", "A", "2"],
            ["d", "p1", "B", "3"]] : List Row).map
          (fun r => jsCellStr r 0))).length = 1) ∧
    (∃ chart : Chart,
      processDataForVisualization "THIS_YEAR" (JsDate.mk 2025 1 1)
          (fun _ => none) none
          (some (VizData.mk (some stdHeaders)
            (some [["d", "p1", "A", "1"], ["d", "p2", "A", "2"],
              ["d", "p1", "B", "3"]]) [] true)) =
        Except.ok chart ∧
      chart.datasets.length = 2 ∧
      (∀ ds ∈ chart.datasets, ds.data.length = chart.labels.length) ∧
      ("THIS_YEAR" ≠ "LAST_12_MONTHS" → chart.labels.length = 2) ∧
      (∀ i j : Nat, i < chart.datasets.length → j < chart.labels.length →
        ([["d", "p1", "A", "1"], ["d", "p2", "A", "2"],
            ["d", "p1", "B", "3"]] : List Row).filter (fun r => decide
            (jsCellStr r 2 =
              (dedupFirst
                (([["d", "p1", "A", "1"], ["d", "p2", "A", "2"],
                    ["d", "p1", "B", "3"]] : List Row).map
                  (fun r => jsCellStr r 2))).getD i "undefined" ∧
            jsCellStr r 1 =
              (finalUniquePeriods "THIS_YEAR" (JsDate.mk 2025 1 1)
                (([["d", "p1", "A", "1"], ["d", "p2", "A", "2"],
                    ["d", "p1", "B", "3"]] : List Row).map
                  (fun r => jsCellStr r 1))).getD j "undefined")) = [] →
        (chart.datasets.getD i (Dataset.mk "" [])).data.getD j 1 = 0)) :=
  ⟨⟨by decide, by decide, by decide, by decide⟩,
    multiOrgUnit_chart "THIS_YEAR" (JsDate.mk 2025 1 1) (fun _ => none)
      none [["d", "p1", "A", "1"], ["d", "p2", "A", "2"],
        ["d", "p1", "B", "3"]] [] (by decide) (by decide) (by decide)
      (by decide)⟩

theorem mem_dedupFirst {a : String} : ∀ {l : List String},
    a ∈ dedupFirst l ↔ a ∈ l := by
  intro l
  induction l with
  | nil => simp [dedupFirst]
  | cons x xs ih =>
    simp only [dedupFirst, List.mem_cons, List.mem_filter]
    constructor
    · rintro (rfl | ⟨hmem, _⟩)
      · exact Or.inl rfl
      · exact Or.inr (ih.mp hmem)
    · rintro (rfl | hmem)
      · exact Or.inl rfl
      · by_cases hax : a = x
        · exact Or.inl hax
        · exact Or.inr ⟨ih.mpr hmem, by simp [hax]⟩

theorem nodup_dedupFirst : ∀ (l : List String), (dedupFirst l).Nodup := by
  intro l
  induction l with
  | nil => simp [dedupFirst]
  | cons x xs ih =>
    simp only [dedupFirst]
    refine List.Nodup.cons ?_ (List.Nodup.filter _ ih)
    intro hmem
    have := (List.mem_filter.mp hmem).2
    simp at this

theorem dedupFirst_cons (x : String) (l : List String) :
    dedupFirst (x :: l) = x :: (dedupFirst l).filter (fun y => y ≠ x) := rfl

theorem dedupFirst_append_singleton (x : String) :
    ∀ (K : List String),
      dedupFirst (K ++ [x]) =
        if x ∈ K then dedupFirst K else dedupFirst K ++ [x] := by
  intro K
  induction K with
  | nil => simp [dedupFirst]
  | cons y K' ih =>
    rw [List.cons_append, dedupFirst_cons, ih, dedupFirst_cons]
    by_cases hmem : x ∈ K'
    · rw [if_pos hmem, if_pos (List.mem_cons.mpr (Or.inr hmem))]
    · rw [if_neg hmem, List.filter_append]
      by_cases hxy : x = y
      · subst hxy
        rw [if_pos (List.mem_cons.mpr (Or.inl rfl))]
        simp
      · rw [if_neg (by simp [hxy, hmem])]
        simp [hxy]

theorem filter_ne_idem (p : String) (X : List String) :
    (X.filter (fun y => y ≠ p)).filter (fun y => y ≠ p) =
      X.filter (fun y => y ≠ p) := by
  rw [List.filter_filter]
  apply List.filter_congr
  intro x _
  simp

theorem filter_ne_comm (p q : String) (X : List String) :
    (X.filter (fun y => y ≠ p)).filter (fun y => y ≠ q) =
      (X.filter (fun y => y ≠ q)).filter (fun y => y ≠ p) := by
  rw [List.filter_filter, List.filter_filter]
  apply List.filter_congr
  intro x _
  simp [Bool.and_comm]

theorem dedupFirst_filter_map (f : String → String) (a : String) :
    ∀ (L : List String),
      ((dedupFirst ((L.filter (fun y => y ≠ a)).map f)).filter
          (fun y => y ≠ f a)) =
        ((dedupFirst (L.map f)).filter (fun y => y ≠ f a)) := by
  intro L
  induction L with
  | nil => rfl
  | cons b L' ih =>
    by_cases hba : b = a
    · subst hba
      have hdrop : (b :: L').filter (fun y => y ≠ b) =
          L'.filter (fun y => y ≠ b) := by
        simp [List.filter_cons]
      rw [hdrop, ih, List.map_cons, dedupFirst_cons, List.filter_cons]
      rw [show (decide (f b ≠ f b) = false) from by simp]
      rw [if_neg (by simp)]
      exact (filter_ne_idem (f b) (dedupFirst (L'.map f))).symm
    · have hkeep : (b :: L').filter (fun y => y ≠ a) =
          b :: L'.filter (fun y => y ≠ a) := by
        simp [List.filter_cons, hba]
      rw [hkeep, List.map_cons, dedupFirst_cons, List.map_cons,
        dedupFirst_cons]
      by_cases hfb : f b = f a
      · rw [List.filter_cons, List.filter_cons]
        rw [show (decide (f b ≠ f a) = false) from by simp [hfb]]
        rw [if_neg (by simp), if_neg (by simp)]
        rw [hfb, filter_ne_idem, filter_ne_idem, ih]
      · rw [List.filter_cons, List.filter_cons]
        rw [show (decide (f b ≠ f a) = true) from by simp [hfb]]
        rw [if_pos rfl, if_pos rfl]
        congr 1
        rw [filter_ne_comm, ih, filter_ne_comm]

/-- Deduplicating, mapping, then deduplicating again is the same as
mapping and deduplicating: removing later duplicates does not change the
set or the first-occurrence order of the images. -/
theorem dedupFirst_map_dedupFirst (f : String → String) :
    ∀ (l : List String),
      dedupFirst ((dedupFirst l).map f) = dedupFirst (l.map f) := by
  intro l
  induction l with
  | nil => rfl
  | cons a l ih =>
    show dedupFirst (f a :: ((dedupFirst l).filter (fun y => y ≠ a)).map f) =
      dedupFirst (f a :: l.map f)
    simp only [dedupFirst]
    rw [dedupFirst_filter_map, ih]

theorem updateAt_map_mem {γ : Type} (k : String) (f : Option γ → γ)
    (F : String → γ) :
    ∀ (ks : List String), ks.Nodup → k ∈ ks →
      updateAt k f (ks.map (fun x => (x, F x))) =
        ks.map (fun x => (x, if x = k then f (some (F x)) else F x)) := by
  intro ks
  induction ks with
  | nil => intro _ h; cases h
  | cons x ks' ih =>
    intro hnd hmem
    simp only [List.map_cons, updateAt]
    by_cases hxk : x = k
    · rw [if_pos hxk, if_pos hxk]
      congr 1
      apply List.map_congr_left
      intro y hy
      have hyk : y ≠ k := by
        intro hcontra
        subst hcontra
        subst hxk
        exact (List.nodup_cons.mp hnd).1 hy
      rw [if_neg hyk]
    · rw [if_neg hxk, if_neg hxk]
      congr 1
      exact ih (List.nodup_cons.mp hnd).2
        (List.mem_cons.mp hmem |>.resolve_left (fun h => hxk h.symm))

theorem updateAt_map_not_mem {γ : Type} (k : String) (f : Option γ → γ)
    (F : String → γ) :
    ∀ (ks : List String), k ∉ ks →
      updateAt k f (ks.map (fun x => (x, F x))) =
        ks.map (fun x => (x, F x)) ++ [(k, f none)] := by
  intro ks
  induction ks with
  | nil => intro _; rfl
  | cons x ks' ih =>
    intro hmem
    simp only [List.map_cons, updateAt, List.cons_append]
    rw [if_neg (fun h => hmem (List.mem_cons.mpr (Or.inl h.symm)))]
    congr 1
    exact ih (fun h => hmem (List.mem_cons.mpr (Or.inr h)))

/-- Value accumulated for key `k` by a grouping fold: the group is
initialised from the first element carrying the key and updated by each
later one.  The `[]` case is unreachable at every use site (`k` is drawn
from the key list). -/
def groupVal {β γ : Type} [Inhabited β] (key : β → String) (init : β → γ)
    (upd : γ → β → γ) (l : List β) (k : String) : γ :=
  match l.filter (fun e => key e = k) with
  | [] => init default
  | e₀ :: rest => rest.foldl upd (init e₀)

theorem groupVal_append_eq {β γ : Type} [Inhabited β] (key : β → String)
    (init : β → γ) (upd : γ → β → γ) (l : List β) (e : β) (k : String)
    (hk : key e = k) :
    groupVal key init upd (l ++ [e]) k =
      if (l.filter (fun x => key x = k)).isEmpty then init e
      else upd (groupVal key init upd l k) e := by
  unfold groupVal
  rw [List.filter_append]
  rcases hfl : l.filter (fun x => key x = k) with _ | ⟨e₀, rest⟩
  · simp [hk]
  · simp only [List.isEmpty_cons]
    have : [e].filter (fun x => key x = k) = [e] := by simp [hk]
    rw [this, List.cons_append]
    show List.foldl upd (init e₀) (rest ++ [e]) = _
    rw [List.foldl_append, if_neg (by simp)]
    rfl

theorem groupVal_append_ne {β γ : Type} [Inhabited β] (key : β → String)
    (init : β → γ) (upd : γ → β → γ) (l : List β) (e : β) (k : String)
    (hk : key e ≠ k) :
    groupVal key init upd (l ++ [e]) k = groupVal key init upd l k := by
  unfold groupVal
  rw [List.filter_append]
  have : [e].filter (fun x => key x = k) = [] := by simp [hk]
  rw [this, List.append_nil]

theorem filter_key_eq_nil {β : Type} (key : β → String) (l : List β)
    (k : String) (hk : k ∉ l.map key) :
    l.filter (fun e => key e = k) = [] := by
  rw [List.filter_eq_nil_iff]
  intro e he
  simp only [decide_eq_true_eq]
  intro hcontra
  exact hk (List.mem_map.mpr ⟨e, he, hcontra⟩)

theorem filter_key_ne_nil {β : Type} (key : β → String) (l : List β)
    (k : String) (hk : k ∈ l.map key) :
    (l.filter (fun e => key e = k)).isEmpty = false := by
  rcases List.mem_map.mp hk with ⟨e, he, rfl⟩
  have : e ∈ l.filter (fun x => key x = key e) :=
    List.mem_filter.mpr ⟨he, by simp⟩
  rcases hfl : l.filter (fun x => key x = key e) with _ | _
  · rw [hfl] at this; cases this
  · rfl

/-- Characterization of the JavaScript grouping idiom: folding
`updateAt` over a list groups it by key — the resulting association list
has the distinct keys in first-occurrence order, each carrying the fold
of its group. -/
theorem foldl_updateAt_group {β γ : Type} [Inhabited β] (key : β → String)
    (init : β → γ) (upd : γ → β → γ) (f : β → Option γ → γ)
    (hf_none : ∀ e, f e none = init e)
    (hf_some : ∀ e g, f e (some g) = upd g e) (l : List β) :
    l.foldl (fun acc e => updateAt (key e) (f e) acc) [] =
      (dedupFirst (l.map key)).map
        (fun k => (k, groupVal key init upd l k)) := by
  induction l using List.reverseRecOn with
  | nil => rfl
  | append_singleton l e ih =>
    rw [List.foldl_append, ih, List.foldl_cons, List.foldl_nil,
      List.map_append, List.map_cons, List.map_nil,
      dedupFirst_append_singleton]
    by_cases hmem : key e ∈ l.map key
    · rw [if_pos hmem]
      rw [updateAt_map_mem _ _ _ _ (nodup_dedupFirst _)
        (mem_dedupFirst.mpr hmem)]
      apply List.map_congr_left
      intro x hx
      by_cases hxk : x = key e
      · subst hxk
        rw [if_pos rfl, groupVal_append_eq _ _ _ _ _ _ rfl,
          filter_key_ne_nil _ _ _ hmem, hf_some]
        rfl
      · rw [if_neg hxk, groupVal_append_ne _ _ _ _ _ _
          (fun h => hxk h.symm)]
    · rw [if_neg hmem]
      rw [updateAt_map_not_mem _ _ _ _
        (fun h => hmem (mem_dedupFirst.mp h)), List.map_append]
      congr 1
      · apply List.map_congr_left
        intro x hx
        have hxk : key e ≠ x := by
          intro hcontra
          exact hmem (by rw [hcontra]; exact mem_dedupFirst.mp hx)
        rw [groupVal_append_ne _ _ _ _ _ _ hxk]
      · simp only [List.map_cons, List.map_nil]
        rw [groupVal_append_eq _ _ _ _ _ _ rfl,
          filter_key_eq_nil _ _ _ hmem, hf_none]
        rfl

theorem lexLt_irrefl : ∀ (a : List Char), lexLt a a = false := by
  intro a
  induction a with
  | nil => rfl
  | cons x xs ih =>
    simp only [lexLt, lt_irrefl, if_false]
    exact ih

theorem lexLt_not_iff : ∀ (a b : List Char),
    lexLt a b = false ↔ (a = b ∨ lexLt b a = true) := by
  intro a
  induction a with
  | nil =>
    intro b
    cases b with
    | nil => simp [lexLt]
    | cons y ys => simp [lexLt]
  | cons x xs ih =>
    intro b
    cases b with
    | nil => simp [lexLt]
    | cons y ys =>
      simp only [lexLt]
      rcases lt_trichotomy x y with hlt | heq | hgt
      · rw [if_pos hlt]
        simp only [Bool.true_eq_false, false_iff]
        push_neg
        constructor
        · intro hcontra
          injection hcontra with h1 _
          exact absurd h1 (ne_of_lt hlt)
        · rw [if_neg (lt_asymm hlt), if_pos hlt]
          simp
      · subst heq
        rw [if_neg (lt_irrefl x), if_neg (lt_irrefl x), if_neg (lt_irrefl x),
          if_neg (lt_irrefl x)]
        rw [ih ys]
        constructor
        · rintro (rfl | h)
          · exact Or.inl rfl
          · exact Or.inr h
        · rintro (heq | h)
          · injection heq with _ h2
            exact Or.inl h2
          · exact Or.inr h
      · rw [if_neg (lt_asymm hgt), if_pos hgt]
        constructor
        · intro _
          refine Or.inr ?_
          rw [if_pos hgt]
        · intro _
          rfl

theorem lexLt_asymm {a b : List Char} (h : lexLt a b = true) :
    lexLt b a = false := by
  rw [lexLt_not_iff]
  by_cases heq : b = a
  · subst heq
    rw [lexLt_irrefl] at h
    cases h
  · exact Or.inr h

theorem lexLt_trans : ∀ (a b c : List Char),
    lexLt a b = true → lexLt b c = true → lexLt a c = true := by
  intro a
  induction a with
  | nil =>
    intro b c hab hbc
    cases b with
    | nil => cases hab
    | cons y ys =>
      cases c with
      | nil => cases hbc
      | cons z zs => rfl
  | cons x xs ih =>
    intro b c hab hbc
    cases b with
    | nil => cases hab
    | cons y ys =>
      cases c with
      | nil => cases hbc
      | cons z zs =>
        simp only [lexLt] at hab hbc ⊢
        rcases lt_trichotomy x y with hxy | hxy | hxy
        · rcases lt_trichotomy y z with hyz | hyz | hyz
          · rw [if_pos (lt_trans hxy hyz)]
          · subst hyz
            rw [if_pos hxy]
          · rw [if_pos hyz, if_neg (lt_asymm hyz)] at hbc
            cases hbc
        · subst hxy
          rcases lt_trichotomy x z with hxz | hxz | hxz
          · rw [if_pos hxz]
          · subst hxz
            rw [if_neg (lt_irrefl x), if_neg (lt_irrefl x)] at hab hbc ⊢
            exact ih ys zs hab hbc
          · rw [if_neg (lt_asymm hxz), if_pos hxz] at hbc
            cases hbc
        · rw [if_neg (lt_asymm hxy), if_pos hxy] at hab
          cases hab

theorem char_toNat_lt {a b : Char} : a < b ↔ a.toNat < b.toNat :=
  Char.lt_def

theorem isDigit_bounds {c : Char} (h : c.isDigit = true) :
    48 ≤ c.toNat ∧ c.toNat ≤ 57 := by
  unfold Char.isDigit at h
  rw [Bool.and_eq_true, decide_eq_true_eq, decide_eq_true_eq] at h
  exact ⟨h.1, h.2⟩

theorem digitsToNat_acc :
    ∀ (cs : List Char) (acc : Nat),
      cs.foldl (fun a c => 10 * a + (c.toNat - 48)) acc =
        acc * 10 ^ cs.length + digitsToNat cs := by
  intro cs
  induction cs with
  | nil => intro acc; simp [digitsToNat]
  | cons c cs ih =>
    intro acc
    show cs.foldl _ (10 * acc + (c.toNat - 48)) = _
    rw [ih (10 * acc + (c.toNat - 48))]
    have hd : digitsToNat (c :: cs) =
        (c.toNat - 48) * 10 ^ cs.length + digitsToNat cs := by
      show cs.foldl _ (10 * 0 + (c.toNat - 48)) = _
      rw [ih (10 * 0 + (c.toNat - 48))]
      ring_nf
    rw [hd, List.length_cons]
    ring

theorem digitsToNat_lt_pow (cs : List Char)
    (h : ∀ c ∈ cs, c.isDigit = true) :
    digitsToNat cs < 10 ^ cs.length := by
  induction cs with
  | nil => simp [digitsToNat]
  | cons c cs ih =>
    have hc := isDigit_bounds (h c (by simp))
    have hcs := ih (fun x hx => h x (by simp [hx]))
    have hd : digitsToNat (c :: cs) =
        (c.toNat - 48) * 10 ^ cs.length + digitsToNat cs := by
      show cs.foldl _ (10 * 0 + (c.toNat - 48)) = _
      rw [digitsToNat_acc cs (10 * 0 + (c.toNat - 48))]
      ring_nf
    rw [hd, List.length_cons]
    have hd9 : c.toNat - 48 ≤ 9 := by omega
    calc (c.toNat - 48) * 10 ^ cs.length + digitsToNat cs
        < (c.toNat - 48) * 10 ^ cs.length + 10 ^ cs.length := by omega
      _ = (c.toNat - 48 + 1) * 10 ^ cs.length := by ring
      _ ≤ 10 * 10 ^ cs.length := by
          apply Nat.mul_le_mul_right
          omega
      _ = 10 ^ (cs.length + 1) := by ring

theorem lexLt_digits_iff :
    ∀ (a b : List Char), a.length = b.length →
      (∀ c ∈ a, c.isDigit = true) → (∀ c ∈ b, c.isDigit = true) →
      (lexLt a b = true ↔ digitsToNat a < digitsToNat b) := by
  intro a
  induction a with
  | nil =>
    intro b hlen _ _
    cases b with
    | nil => simp [lexLt, digitsToNat]
    | cons y ys => cases hlen
  | cons x xs ih =>
    intro b hlen hda hdb
    cases b with
    | nil => cases hlen
    | cons y ys =>
      have hlen' : xs.length = ys.length := by
        simpa using hlen
      have hx := isDigit_bounds (hda x (by simp))
      have hy := isDigit_bounds (hdb y (by simp))
      have hxs : ∀ c ∈ xs, c.isDigit = true := fun c hc => hda c (by simp [hc])
      have hys : ∀ c ∈ ys, c.isDigit = true := fun c hc => hdb c (by simp [hc])
      have hvx : digitsToNat (x :: xs) =
          (x.toNat - 48) * 10 ^ xs.length + digitsToNat xs := by
        show xs.foldl _ (10 * 0 + (x.toNat - 48)) = _
        rw [digitsToNat_acc xs (10 * 0 + (x.toNat - 48))]
        ring_nf
      have hvy : digitsToNat (y :: ys) =
          (y.toNat - 48) * 10 ^ ys.length + digitsToNat ys := by
        show ys.foldl _ (10 * 0 + (y.toNat - 48)) = _
        rw [digitsToNat_acc ys (10 * 0 + (y.toNat - 48))]
        ring_nf
      have hxbound := digitsToNat_lt_pow xs hxs
      have hybound := digitsToNat_lt_pow ys hys
      simp only [lexLt, hvx, hvy]
      rcases lt_trichotomy x y with hxy | hxy | hxy
      · rw [if_pos hxy]
        simp only [true_iff]
        have hlt : x.toNat - 48 < y.toNat - 48 := by
          have := char_toNat_lt.mp hxy
          omega
        calc (x.toNat - 48) * 10 ^ xs.length + digitsToNat xs
            < (x.toNat - 48) * 10 ^ xs.length + 10 ^ xs.length := by omega
          _ = (x.toNat - 48 + 1) * 10 ^ xs.length := by ring
          _ ≤ (y.toNat - 48) * 10 ^ xs.length := by
              apply Nat.mul_le_mul_right
              omega
          _ = (y.toNat - 48) * 10 ^ ys.length := by rw [hlen']
          _ ≤ (y.toNat - 48) * 10 ^ ys.length + digitsToNat ys := by omega
      · subst hxy
        rw [if_neg (lt_irrefl x), if_neg (lt_irrefl x)]
        rw [ih ys hlen' hxs hys]
        rw [hlen']
        omega
      · rw [if_neg (lt_asymm hxy), if_pos hxy]
        simp only [Bool.false_eq_true, false_iff, not_lt]
        have hlt : y.toNat - 48 < x.toNat - 48 := by
          have := char_toNat_lt.mp hxy
          omega
        apply le_of_lt
        calc (y.toNat - 48) * 10 ^ ys.length + digitsToNat ys
            < (y.toNat - 48) * 10 ^ ys.length + 10 ^ ys.length := by omega
          _ = (y.toNat - 48 + 1) * 10 ^ ys.length := by ring
          _ ≤ (x.toNat - 48) * 10 ^ ys.length := by
              apply Nat.mul_le_mul_right
              omega
          _ = (x.toNat - 48) * 10 ^ xs.length := by rw [hlen']
          _ ≤ (x.toNat - 48) * 10 ^ xs.length + digitsToNat xs := by omega

theorem digitsToNat_inj {a b : List Char} (hlen : a.length = b.length)
    (hda : ∀ c ∈ a, c.isDigit = true) (hdb : ∀ c ∈ b, c.isDigit = true)
    (hv : digitsToNat a = digitsToNat b) : a = b := by
  by_cases hab : lexLt a b = true
  · have := (lexLt_digits_iff a b hlen hda hdb).mp hab
    omega
  · rcases (lexLt_not_iff a b).mp (by simpa using hab) with heq | hba
    · exact heq
    · have := (lexLt_digits_iff b a hlen.symm hdb hda).mp hba
      omega

/-- Sign comparison of two naturals in the -1/0/1 convention. -/
def compareNatInt (x y : Nat) : Int :=
  if x < y then -1 else if y < x then 1 else 0

def isAllDigits (s : String) : Bool :=
  !s.data.isEmpty && s.data.all Char.isDigit

def isQnStr (s : String) : Bool :=
  s.data.length == 6 && (s.data.take 4).all Char.isDigit &&
    (s.data.getD 4 ' ' == 'Q') && (s.data.drop 5).all Char.isDigit

/-- Modelled from the spec: `compareConcretePeriods` (§4.1), the single
chronological comparator the specification prescribes for all period
ordering; the repository has no such function under `src/` (each
projection sorts ad hoc).  Per §4.1: numeric comparison for all-digit
identifiers (`YYYYMM`, `YYYY`), numeric year-then-quarter comparison for
`YYYYQN`, date comparison for ISO dates, and plain code-point comparison
as the pass-through fallback. -/
def compareConcretePeriods (a b : String) : Int :=
  if isAllDigits a ∧ isAllDigits b then
    compareNatInt (digitsToNat a.data) (digitsToNat b.data)
  else if isQnStr a ∧ isQnStr b then
    let ya := digitsToNat (a.data.take 4)
    let yb := digitsToNat (b.data.take 4)
    if ya ≠ yb then compareNatInt ya yb
    else compareNatInt (digitsToNat (a.data.drop 5))
      (digitsToNat (b.data.drop 5))
  else if (parseIsoDate a).isSome ∧ (parseIsoDate b).isSome then
    match parseIsoDate a, parseIsoDate b with
    | some ta, some tb =>
      if ta = tb then 0 else if tripleLe ta tb then -1 else 1
    | _, _ => 0
  else if lexLt a.data b.data then -1
  else if lexLt b.data a.data then 1
  else 0

/-- A well-formed `YYYYMM` period identifier: six decimal digits. -/
def isYYYYMM (s : String) : Prop :=
  s.data.length = 6 ∧ ∀ c ∈ s.data, c.isDigit = true

instance (s : String) : Decidable (isYYYYMM s) := by
  unfold isYYYYMM
  infer_instance

theorem cmp_le_iff_jsStrLe {a b : String} (ha : isYYYYMM a)
    (hb : isYYYYMM b) :
    (compareConcretePeriods a b ≤ 0) ↔ (jsStrLe a b = true) := by
  obtain ⟨hal, had⟩ := ha
  obtain ⟨hbl, hbd⟩ := hb
  have hane : a.data.isEmpty = false := by
    rcases hd : a.data with _ | _
    · rw [hd] at hal; cases hal
    · rfl
  have hbne : b.data.isEmpty = false := by
    rcases hd : b.data with _ | _
    · rw [hd] at hbl; cases hbl
    · rfl
  have hdig : isAllDigits a ∧ isAllDigits b := by
    constructor
    · unfold isAllDigits
      rw [hane]
      simp only [Bool.not_false, Bool.true_and, List.all_eq_true]
      exact had
    · unfold isAllDigits
      rw [hbne]
      simp only [Bool.not_false, Bool.true_and, List.all_eq_true]
      exact hbd
  unfold compareConcretePeriods
  rw [if_pos hdig]
  have hlen : a.data.length = b.data.length := by rw [hal, hbl]
  unfold jsStrLe
  constructor
  · intro hcmp
    rw [Bool.not_eq_true']
    by_cases hba : lexLt b.data a.data = true
    · have := (lexLt_digits_iff b.data a.data hlen.symm hbd had).mp hba
      unfold compareNatInt at hcmp
      rw [if_neg (by omega), if_pos this] at hcmp
      omega
    · simpa using hba
  · intro hle
    have hba : lexLt b.data a.data = false := by
      simpa using hle
    have : ¬ digitsToNat b.data < digitsToNat a.data := by
      intro hcontra
      rw [(lexLt_digits_iff b.data a.data hlen.symm hbd had).mpr hcontra]
        at hba
      cases hba
    unfold compareNatInt
    by_cases hab : digitsToNat a.data < digitsToNat b.data
    · rw [if_pos hab]; omega
    · rw [if_neg hab, if_neg this]

theorem orderedInsert_congr {α : Type} (r s : α → α → Prop)
    [DecidableRel r] [DecidableRel s] (a : α) :
    ∀ (l : List α), (∀ b ∈ l, (r a b ↔ s a b)) →
      List.orderedInsert r a l = List.orderedInsert s a l := by
  intro l
  induction l with
  | nil => intro _; rfl
  | cons b bs ih =>
    intro h
    simp only [List.orderedInsert]
    by_cases hr : r a b
    · rw [if_pos hr, if_pos ((h b (by simp)).mp hr)]
    · rw [if_neg hr, if_neg (fun hs => hr ((h b (by simp)).mpr hs)),
        ih (fun c hc => h c (by simp [hc]))]

theorem insertionSort_congr {α : Type} (r s : α → α → Prop)
    [DecidableRel r] [DecidableRel s] :
    ∀ (l : List α), (∀ a ∈ l, ∀ b ∈ l, (r a b ↔ s a b)) →
      List.insertionSort r l = List.insertionSort s l := by
  intro l
  induction l with
  | nil => intro _; rfl
  | cons a l ih =>
    intro h
    simp only [List.insertionSort]
    rw [ih (fun x hx y hy => h x (by simp [hx]) y (by simp [hy]))]
    apply orderedInsert_congr
    intro b hb
    have hbmem : b ∈ l := (List.perm_insertionSort s l).mem_iff.mp hb
    exact h a (by simp) b (by simp [hbmem])

theorem orderedInsert_map_fst {γ : Type} (r : String → String → Prop)
    [DecidableRel r] (f : String → γ) (k : String) :
    ∀ (ks : List String),
      List.orderedInsert (fun p q : String × γ => r p.1 q.1) (k, f k)
          (ks.map (fun x => (x, f x))) =
        (List.orderedInsert r k ks).map (fun x => (x, f x)) := by
  intro ks
  induction ks with
  | nil => rfl
  | cons x ks' ih =>
    simp only [List.map_cons, List.orderedInsert]
    by_cases hr : r k x
    · rw [if_pos hr, if_pos hr]
      rfl
    · rw [if_neg hr, if_neg hr, List.map_cons, ih]

/-- Sorting a key-indexed pair list by its keys is sorting the keys and
re-attaching the values. -/
theorem insertionSort_map_fst {γ : Type} (r : String → String → Prop)
    [DecidableRel r] (f : String → γ) :
    ∀ (ks : List String),
      List.insertionSort (fun p q : String × γ => r p.1 q.1)
          (ks.map (fun x => (x, f x))) =
        (List.insertionSort r ks).map (fun x => (x, f x)) := by
  intro ks
  induction ks with
  | nil => rfl
  | cons x ks' ih =>
    simp only [List.map_cons, List.insertionSort]
    rw [ih, orderedInsert_map_fst]

/-- The period part of a combined `deId + "_" + peId` key: the characters
after the last underscore. -/
def keyPe (k : String) : String :=
  String.mk ((k.data.reverse.takeWhile (fun c => c ≠ '_')).reverse)

/-- The data-element part of a combined key: the characters before the
last underscore. -/
def keyDe (k : String) : String :=
  String.mk (((k.data.reverse.dropWhile (fun c => c ≠ '_')).drop 1).reverse)

theorem takeWhile_append_stop {α : Type} (p : α → Bool) :
    ∀ (xs : List α) (y : α) (ys : List α),
      (∀ x ∈ xs, p x = true) → p y = false →
      ((xs ++ y :: ys).takeWhile p = xs ∧
        (xs ++ y :: ys).dropWhile p = y :: ys) := by
  intro xs
  induction xs with
  | nil =>
    intro y ys _ hy
    constructor
    · simp [List.takeWhile_cons, hy]
    · simp [List.dropWhile_cons, hy]
  | cons x xs ih =>
    intro y ys hall hy
    obtain ⟨ht, hd⟩ := ih y ys (fun z hz => hall z (by simp [hz])) hy
    constructor
    · rw [List.cons_append, List.takeWhile_cons, hall x (by simp)]
      simp [ht]
    · rw [List.cons_append, List.dropWhile_cons, hall x (by simp)]
      simpa using hd

theorem key_data_eq (de pe : String) :
    (de ++ "_" ++ pe).data = de.data ++ '_' :: pe.data := by
  rw [data_append, data_append]
  simp

theorem keyPe_eq (de pe : String) (hpe : ∀ c ∈ pe.data, c ≠ '_') :
    keyPe (de ++ "_" ++ pe) = pe := by
  unfold keyPe
  rw [key_data_eq]
  have hrev : (de.data ++ '_' :: pe.data).reverse =
      pe.data.reverse ++ '_' :: de.data.reverse := by
    rw [show ('_' :: pe.data) = ['_'] ++ pe.data from rfl,
      ← List.append_assoc, List.reverse_append, List.reverse_append]
    simp
  rw [hrev]
  rw [(takeWhile_append_stop _ pe.data.reverse '_' de.data.reverse
      (fun c hc => by
        simp only [decide_eq_true_eq]
        exact hpe c (List.mem_reverse.mp hc))
      (by simp)).1]
  rw [List.reverse_reverse]

theorem keyDe_eq (de pe : String) (hpe : ∀ c ∈ pe.data, c ≠ '_') :
    keyDe (de ++ "_" ++ pe) = de := by
  unfold keyDe
  rw [key_data_eq]
  have hrev : (de.data ++ '_' :: pe.data).reverse =
      pe.data.reverse ++ '_' :: de.data.reverse := by
    rw [show ('_' :: pe.data) = ['_'] ++ pe.data from rfl,
      ← List.append_assoc, List.reverse_append, List.reverse_append]
    simp
  rw [hrev]
  rw [(takeWhile_append_stop _ pe.data.reverse '_' de.data.reverse
      (fun c hc => by
        simp only [decide_eq_true_eq]
        exact hpe c (List.mem_reverse.mp hc))
      (by simp)).2]
  simp

theorem isYYYYMM_no_underscore {s : String} (h : isYYYYMM s) :
    ∀ c ∈ s.data, c ≠ '_' := by
  intro c hc hcontra
  subst hcontra
  have := h.2 _ hc
  simp [Char.isDigit] at this

/-- The combined key built by the row scan for a (dx, pe) cell pair. -/
def epKey (r : Row) : String := jsCellStr r 0 ++ "_" ++ jsCellStr r 1

/-- The entry created on the first row of a (dx, pe) group. -/
def epInit (r : Row) : EPEntry :=
  EPEntry.mk (jsCellStr r 0) (jsCellStr r 1)
    [(parseFloatStr (jsCellStr r 3)).getD 0]

/-- The update applied by each later row of the group. -/
def epUpd (e : EPEntry) (r : Row) : EPEntry :=
  { e with values := e.values ++ [(parseFloatStr (jsCellStr r 3)).getD 0] }

/-- Modelled from the spec (§4.5): the per-item periods present in the
data, in first-occurrence order before sorting. -/
def periodsOf (rows : List Row) (de : String) : List String :=
  dedupFirst
    ((rows.filter (fun r => jsCellStr r 0 = de)).map (fun r => jsCellStr r 1))

/-- Modelled from the spec (§4.5): the numeric values of the records
matching an (item, period) pair. -/
def valuesOf (rows : List Row) (de pe : String) : List ℚ :=
  (rows.filter (fun r => jsCellStr r 0 = de ∧ jsCellStr r 1 = pe)).filterMap
    (fun r => parseFloatStr (jsCellStr r 3))

def meanOf (vs : List ℚ) : ℚ :=
  vs.foldl (fun a v => a + v) 0 / (vs.length : ℚ)

/-- Modelled from the spec (§4.5): the SummaryEngine time series — for
each item one point per distinct period present in the data, the value
being the mean of all matching records (reported through the 2-decimal
rounding the code applies), ordered by `compareConcretePeriods`. -/
def specTimeSeries (meta : MetaItems) (rows : List Row) :
    List (String × List (String × ℚ)) :=
  (dedupFirst (rows.map (fun r => jsCellStr r 0))).map (fun de =>
    (metaDisplayName meta de,
      (List.insertionSort
          (fun a b : String => compareConcretePeriods a b ≤ 0)
          (periodsOf rows de)).map
        (fun pe =>
          (periodDisplayName meta pe, toFixed2 (meanOf (valuesOf rows de pe))))))

theorem filterMap_eq_map_getD {β : Type} (f : β → Option ℚ) :
    ∀ (l : List β), (∀ x ∈ l, (f x).isSome = true) →
      l.filterMap f = l.map (fun x => (f x).getD 0) := by
  intro l
  induction l with
  | nil => intro _; rfl
  | cons x xs ih =>
    intro h
    rcases hfx : f x with _ | v
    · have := h x (by simp)
      rw [hfx] at this
      cases this
    · rw [List.filterMap_cons_some hfx, List.map_cons,
        ih (fun y hy => h y (by simp [hy])), hfx]
      rfl

theorem foldl_push_eq_map {β γ : Type} (val : β → γ) :
    ∀ (rest : List β) (acc : List γ),
      rest.foldl (fun g e => g ++ [val e]) acc = acc ++ rest.map val := by
  intro rest
  induction rest with
  | nil => intro acc; simp
  | cons e es ih =>
    intro acc
    rw [List.foldl_cons, ih, List.map_cons]
    simp

theorem foldl_epUpd_eq (d p : String) :
    ∀ (rest : List Row) (vs : List ℚ),
      rest.foldl epUpd (EPEntry.mk d p vs) =
        EPEntry.mk d p
          (vs ++ rest.map (fun r => (parseFloatStr (jsCellStr r 3)).getD 0)) := by
  intro rest
  induction rest with
  | nil => intro vs; simp
  | cons e es ih =>
    intro vs
    rw [List.foldl_cons]
    show es.foldl epUpd (EPEntry.mk d p
      (vs ++ [(parseFloatStr (jsCellStr e 3)).getD 0])) = _
    rw [ih, List.map_cons]
    simp

/-- Corollary of the grouping characterization for the push idiom. -/
theorem foldl_updateAt_push {β γ : Type} [Inhabited β] (key : β → String)
    (val : β → γ) (l : List β) :
    l.foldl (fun acc e =>
        updateAt (key e) (fun o => (o.getD []) ++ [val e]) acc) [] =
      (dedupFirst (l.map key)).map
        (fun k => (k, (l.filter (fun e => key e = k)).map val)) := by
  rw [foldl_updateAt_group key (fun e => [val e])
    (fun g e => g ++ [val e]) (fun e o => (o.getD []) ++ [val e])
    (fun e => rfl) (fun e g => rfl) l]
  apply List.map_congr_left
  intro k hk
  have hmem : k ∈ l.map key := mem_dedupFirst.mp hk
  have hne := filter_key_ne_nil key l k hmem
  unfold groupVal
  rcases hfl : l.filter (fun e => key e = k) with _ | ⟨e₀, rest⟩
  · rw [hfl] at hne
    cases hne
  · show (k, rest.foldl (fun g e => g ++ [val e]) [val e₀]) = _
    rw [foldl_push_eq_map]
    rfl

/-- The update a guard-passing row applies to `dataByElementAndPeriod`
(dhis2Data.js:537-546). -/
def epStep (r : Row) (o : Option EPEntry) : EPEntry :=
  match o with
  | none => epInit r
  | some e => epUpd e r

theorem scanRow_ep (b : Bool) (st : GroupedData) (r : Row)
    (hpe : isYYYYMM (jsCellStr r 1))
    (hval : (parseFloatStr (jsCellStr r 3)).isSome = true) :
    (scanRow (some 0) (some 2) (some 1) (some 3) b st r).byElementAndPeriod =
      updateAt (epKey r) (epStep r) st.byElementAndPeriod := by
  have hget1 : r.get? 1 = some (jsCellStr r 1) := by
    rcases hg : r.get? 1 with _ | cell
    · exfalso
      have hcell : jsCellStr r 1 = "undefined" := by
        unfold jsCellStr
        rw [hg]
        rfl
      rw [hcell] at hpe
      exact absurd hpe.1 (by decide)
    · unfold jsCellStr
      rw [hg]
      rfl
  have hget3 : r.get? 3 = some (jsCellStr r 3) := by
    rcases hg : r.get? 3 with _ | cell
    · exfalso
      have hcell : jsCellStr r 3 = "undefined" := by
        unfold jsCellStr
        rw [hg]
        rfl
      rw [hcell] at hval
      exact absurd hval (by decide)
    · unfold jsCellStr
      rw [hg]
      rfl
  obtain ⟨v, hv⟩ := Option.isSome_iff_exists.mp hval
  have hpene : ¬ (jsCellStr r 1 = "") := by
    intro hcontra
    rw [hcontra] at hpe
    exact absurd hpe.1 (by decide)
  have hfun : (fun o => match o with
      | none =>
        EPEntry.mk (((some 0).bind (fun i => r.get? i)).getD "undefined")
          (jsCellStr r 1) [v]
      | some e => { e with values := e.values ++ [v] }) = epStep r := by
    funext o
    cases o with
    | none =>
      show EPEntry.mk _ _ _ = epInit r
      unfold epInit
      rw [hv]
      rfl
    | some e =>
      show _ = epUpd e r
      unfold epUpd
      rw [hv]
      rfl
  unfold scanRow
  simp only [Option.some_bind, hget1, hget3, hv]
  rw [if_neg hpene]
  rcases hou : r.get? 2 with _ | ou
  · simp only [hou]
    rw [← hfun]
    rfl
  · simp only [hou]
    by_cases hcond : b = true ∧ ¬ ou = ""
    · rw [if_pos hcond]
      rw [← hfun]
      rfl
    · rw [if_neg hcond]
      rw [← hfun]
      rfl

theorem foldl_scanRow_ep (b : Bool) :
    ∀ (rows : List Row),
      (∀ r ∈ rows, isYYYYMM (jsCellStr r 1) ∧
        (parseFloatStr (jsCellStr r 3)).isSome = true) →
      ∀ (st : GroupedData),
        (rows.foldl (scanRow (some 0) (some 2) (some 1) (some 3) b)
            st).byElementAndPeriod =
          rows.foldl (fun acc r => updateAt (epKey r) (epStep r) acc)
            st.byElementAndPeriod := by
  intro rows
  induction rows with
  | nil => intro _ st; rfl
  | cons r rs ih =>
    intro h st
    rw [List.foldl_cons, List.foldl_cons,
      ih (fun x hx => h x (by simp [hx]))]
    congr 1
    exact scanRow_ep b st r (h r (by simp)).1 (h r (by simp)).2

theorem jsStrLe_total (a b : String) :
    jsStrLe a b = true ∨ jsStrLe b a = true := by
  unfold jsStrLe
  by_cases hab : lexLt a.data b.data = true
  · exact Or.inl (by rw [lexLt_asymm hab]; rfl)
  · exact Or.inr (by rw [Bool.not_eq_true] at hab; rw [hab]; rfl)

theorem jsStrLe_trans {a b c : String} (h₁ : jsStrLe a b = true)
    (h₂ : jsStrLe b c = true) : jsStrLe a c = true := by
  unfold jsStrLe at h₁ h₂ ⊢
  rw [Bool.not_eq_eq_eq_not, Bool.not_true] at h₁ h₂ ⊢
  rcases (lexLt_not_iff _ _).mp h₁ with hba | hab
  · rw [← hba]
    exact h₂
  · rcases (lexLt_not_iff _ _).mp h₂ with hcb | hbc
    · rw [hcb]
      rw [(lexLt_not_iff _ _).mpr (Or.inr hab)]
    · rw [(lexLt_not_iff _ _).mpr (Or.inr (lexLt_trans _ _ _ hab hbc))]

theorem jsStrLe_antisymm {a b : String} (h₁ : jsStrLe a b = true)
    (h₂ : jsStrLe b a = true) : a = b := by
  unfold jsStrLe at h₁ h₂
  rw [Bool.not_eq_eq_eq_not, Bool.not_true] at h₁ h₂
  rcases (lexLt_not_iff _ _).mp h₂ with hab | hba
  · exact String.ext hab
  · rw [h₁] at hba
    cases hba

theorem setAt_append {γ : Type} (k : String) (v : γ) :
    ∀ (l : List (String × γ)), k ∉ l.map Prod.fst →
      setAt k v l = l ++ [(k, v)] := by
  intro l
  induction l with
  | nil => intro _; rfl
  | cons p ps ih =>
    intro hmem
    show setAt k v (p :: ps) = _
    rcases p with ⟨k₀, v₀⟩
    unfold setAt
    rw [if_neg (fun h => hmem (by simp [h]))]
    rw [ih (fun h => hmem (by simp [h]))]
    rfl

theorem foldl_setAt_names {γ : Type} (N : String → String) (G : String → γ) :
    ∀ (ks : List String) (acc : List (String × γ)),
      (∀ k ∈ ks, ∀ k₂ ∈ ks, N k = N k₂ → k = k₂) → ks.Nodup →
      (∀ k ∈ ks, N k ∉ acc.map Prod.fst) →
      ks.foldl (fun a k => setAt (N k) (G k) a) acc =
        acc ++ ks.map (fun k => (N k, G k)) := by
  intro ks
  induction ks with
  | nil => intro acc _ _ _; simp
  | cons k ks' ih =>
    intro acc hinj hnd hacc
    rw [List.foldl_cons, setAt_append _ _ _ (hacc k (by simp))]
    rw [ih (acc ++ [(N k, G k)])
      (fun x hx y hy h => hinj x (by simp [hx]) y (by simp [hy]) h)
      (List.nodup_cons.mp hnd).2 ?_]
    · simp
    · intro x hx
      rw [List.map_append]
      simp only [List.mem_append, List.map_cons, List.map_nil,
        List.mem_singleton]
      push_neg
      constructor
      · exact hacc x (by simp [hx])
      · intro hcontra
        have := hinj x (by simp [hx]) k (by simp) hcontra
        subst this
        exact (List.nodup_cons.mp hnd).1 hx

/-- The grouped `dataByElementAndPeriod` in closed form. -/
def epGroups (rows : List Row) : List (String × EPEntry) :=
  (dedupFirst (rows.map epKey)).map
    (fun k => (k, groupVal epKey epInit epUpd rows k))

theorem ep_of_rows (b : Bool) (rows : List Row)
    (h : ∀ r ∈ rows, isYYYYMM (jsCellStr r 1) ∧
      (parseFloatStr (jsCellStr r 3)).isSome = true) :
    (rows.foldl (scanRow (some 0) (some 2) (some 1) (some 3) b)
        GroupedData.empty).byElementAndPeriod = epGroups rows := by
  rw [foldl_scanRow_ep b rows h GroupedData.empty]
  exact foldl_updateAt_group epKey epInit epUpd epStep
    (fun e => rfl) (fun e g => rfl) rows

theorem epKey_parts (r : Row) (hpe : isYYYYMM (jsCellStr r 1)) :
    keyDe (epKey r) = jsCellStr r 0 ∧ keyPe (epKey r) = jsCellStr r 1 :=
  ⟨keyDe_eq _ _ (isYYYYMM_no_underscore hpe),
   keyPe_eq _ _ (isYYYYMM_no_underscore hpe)⟩

theorem ks_canonical (rows : List Row)
    (hrows : ∀ r ∈ rows, isYYYYMM (jsCellStr r 1) ∧
      (parseFloatStr (jsCellStr r 3)).isSome = true)
    (k : String) (hk : k ∈ rows.map epKey) :
    keyDe k ++ "_" ++ keyPe k = k ∧ isYYYYMM (keyPe k) ∧
      (∃ r ∈ rows, epKey r = k ∧ jsCellStr r 0 = keyDe k ∧
        jsCellStr r 1 = keyPe k) := by
  rcases List.mem_map.mp hk with ⟨r, hr, rfl⟩
  obtain ⟨hde, hpe⟩ := epKey_parts r (hrows r hr).1
  refine ⟨?_, ?_, r, hr, rfl, hde.symm, hpe.symm⟩
  · rw [hde, hpe]
    rfl
  · rw [hpe]
    exact (hrows r hr).1

theorem groupVal_ep (rows : List Row)
    (hrows : ∀ r ∈ rows, isYYYYMM (jsCellStr r 1) ∧
      (parseFloatStr (jsCellStr r 3)).isSome = true)
    (k : String) (hk : k ∈ rows.map epKey) :
    groupVal epKey epInit epUpd rows k =
      EPEntry.mk (keyDe k) (keyPe k)
        ((rows.filter (fun r => epKey r = k)).map
          (fun r => (parseFloatStr (jsCellStr r 3)).getD 0)) := by
  have hne := filter_key_ne_nil epKey rows k hk
  unfold groupVal
  rcases hfl : rows.filter (fun r => epKey r = k) with _ | ⟨e₀, rest⟩
  · rw [hfl] at hne
    cases hne
  · have he₀ : e₀ ∈ rows ∧ epKey e₀ = k := by
      have hin : e₀ ∈ rows.filter (fun r => decide (epKey r = k)) := by
        rw [hfl]
        simp
      have h2 := List.mem_filter.mp hin
      exact ⟨h2.1, by simpa using h2.2⟩
    obtain ⟨hde, hpe⟩ := epKey_parts e₀ (hrows e₀ he₀.1).1
    show rest.foldl epUpd (epInit e₀) = _
    unfold epInit
    rw [foldl_epUpd_eq]
    rw [← he₀.2, hde, hpe]
    rfl

/-- Chronological sorting is independent of the starting arrangement:
two duplicate-free lists of `YYYYMM` identifiers with the same members
sort identically under `compareConcretePeriods`. -/
theorem insertionSort_cmp_eq_of_mem (P Q : List String)
    (hP : ∀ p ∈ P, isYYYYMM p) (hQ : ∀ q ∈ Q, isYYYYMM q)
    (hndP : P.Nodup) (hndQ : Q.Nodup)
    (hmem : ∀ x, x ∈ P ↔ x ∈ Q) :
    List.insertionSort (fun a b : String => compareConcretePeriods a b ≤ 0)
        P =
      List.insertionSort (fun a b : String => compareConcretePeriods a b ≤ 0)
        Q := by
  have hcongrP :
      List.insertionSort
          (fun a b : String => compareConcretePeriods a b ≤ 0) P =
        List.insertionSort (fun a b : String => jsStrLe a b = true) P :=
    insertionSort_congr _ _ P
      (fun a ha b hb => cmp_le_iff_jsStrLe (hP a ha) (hP b hb))
  have hcongrQ :
      List.insertionSort
          (fun a b : String => compareConcretePeriods a b ≤ 0) Q =
        List.insertionSort (fun a b : String => jsStrLe a b = true) Q :=
    insertionSort_congr _ _ Q
      (fun a ha b hb => cmp_le_iff_jsStrLe (hQ a ha) (hQ b hb))
  rw [hcongrP, hcongrQ]
  have hperm :
      (List.insertionSort (fun a b : String => jsStrLe a b = true) P).Perm
        (List.insertionSort (fun a b : String => jsStrLe a b = true) Q) := by
    refine ((List.perm_insertionSort _ P).trans ?_).trans
      (List.perm_insertionSort _ Q).symm
    exact (List.perm_ext_iff_of_nodup hndP hndQ).mpr hmem
  have hsortP := @List.sorted_insertionSort String
    (fun a b : String => jsStrLe a b = true) _
    ⟨fun a b => jsStrLe_total a b⟩ ⟨fun _ _ _ => jsStrLe_trans⟩ P
  have hsortQ := @List.sorted_insertionSort String
    (fun a b : String => jsStrLe a b = true) _
    ⟨fun a b => jsStrLe_total a b⟩ ⟨fun _ _ _ => jsStrLe_trans⟩ Q
  exact @List.eq_of_perm_of_sorted String
    (fun a b : String => jsStrLe a b = true)
    ⟨fun _ _ => jsStrLe_antisymm⟩ _ _ hperm hsortP hsortQ

theorem epGroups_filter_de (rows : List Row)
    (hrows : ∀ r ∈ rows, isYYYYMM (jsCellStr r 1) ∧
      (parseFloatStr (jsCellStr r 3)).isSome = true) (de : String) :
    (epGroups rows).filter (fun p => p.2.dataElement = de) =
      ((dedupFirst (rows.map epKey)).filter (fun k => keyDe k = de)).map
        (fun k => (k, groupVal epKey epInit epUpd rows k)) := by
  unfold epGroups
  rw [List.filter_map]
  congr 1
  apply List.filter_congr
  intro k hk
  show decide ((groupVal epKey epInit epUpd rows k).dataElement = de) =
    decide (keyDe k = de)
  rw [groupVal_ep rows hrows k (mem_dedupFirst.mp hk)]

theorem groupVal_values (rows : List Row)
    (hrows : ∀ r ∈ rows, isYYYYMM (jsCellStr r 1) ∧
      (parseFloatStr (jsCellStr r 3)).isSome = true)
    (k : String) (hk : k ∈ rows.map epKey) :
    (rows.filter (fun r => epKey r = k)).map
        (fun r => (parseFloatStr (jsCellStr r 3)).getD 0) =
      valuesOf rows (keyDe k) (keyPe k) := by
  obtain ⟨hcanon, hpeY, -⟩ := ks_canonical rows hrows k hk
  unfold valuesOf
  rw [filterMap_eq_map_getD _ _
    (fun r hr => (hrows r (List.mem_filter.mp hr).1).2)]
  congr 1
  apply List.filter_congr
  intro r hr
  apply decide_eq_decide.mpr
  constructor
  · intro hek
    obtain ⟨hde, hpe⟩ := epKey_parts r (hrows r hr).1
    rw [hek] at hde hpe
    exact ⟨hde.symm, hpe.symm⟩
  · rintro ⟨h0, h1⟩
    show jsCellStr r 0 ++ "_" ++ jsCellStr r 1 = k
    rw [h0, h1]
    exact hcanon

theorem epGroups_points (rows : List Row)
    (hrows : ∀ r ∈ rows, isYYYYMM (jsCellStr r 1) ∧
      (parseFloatStr (jsCellStr r 3)).isSome = true) (de : String) :
    ((epGroups rows).filter (fun p => p.2.dataElement = de)).map
        (fun p => (p.2.period, meanOf p.2.values)) =
      (((dedupFirst (rows.map epKey)).filter (fun k => keyDe k = de)).map
          keyPe).map
        (fun pe => (pe, meanOf (valuesOf rows de pe))) := by
  rw [epGroups_filter_de rows hrows de, List.map_map, List.map_map]
  apply List.map_congr_left
  intro k hk
  obtain ⟨hks, hkde⟩ := List.mem_filter.mp hk
  have hkde' : keyDe k = de := by simpa using hkde
  have hkmem : k ∈ rows.map epKey := mem_dedupFirst.mp hks
  show ((groupVal epKey epInit epUpd rows k).period,
      meanOf (groupVal epKey epInit epUpd rows k).values) =
    (keyPe k, meanOf (valuesOf rows de (keyPe k)))
  rw [groupVal_ep rows hrows k hkmem]
  show (keyPe k,
      meanOf ((rows.filter (fun r => epKey r = k)).map
        (fun r => (parseFloatStr (jsCellStr r 3)).getD 0))) = _
  rw [groupVal_values rows hrows k hkmem, hkde']

theorem mem_ps_iff (rows : List Row)
    (hrows : ∀ r ∈ rows, isYYYYMM (jsCellStr r 1) ∧
      (parseFloatStr (jsCellStr r 3)).isSome = true) (de pe : String) :
    pe ∈ ((dedupFirst (rows.map epKey)).filter
        (fun k => keyDe k = de)).map keyPe ↔
      pe ∈ periodsOf rows de := by
  unfold periodsOf
  rw [mem_dedupFirst]
  constructor
  · intro h
    obtain ⟨k, hk, rfl⟩ := List.mem_map.mp h
    obtain ⟨hks, hkde⟩ := List.mem_filter.mp hk
    have hkde' : keyDe k = de := by simpa using hkde
    obtain ⟨-, -, r₀, hr₀, -, hde₀, hpe₀⟩ :=
      ks_canonical rows hrows k (mem_dedupFirst.mp hks)
    exact List.mem_map.mpr ⟨r₀,
      List.mem_filter.mpr ⟨hr₀, by simp [hde₀, hkde']⟩, hpe₀⟩
  · intro h
    obtain ⟨r, hr, rfl⟩ := List.mem_map.mp h
    obtain ⟨hrmem, hrde⟩ := List.mem_filter.mp hr
    have hrde' : jsCellStr r 0 = de := by simpa using hrde
    obtain ⟨hde, hpe⟩ := epKey_parts r (hrows r hrmem).1
    refine List.mem_map.mpr ⟨epKey r, List.mem_filter.mpr ⟨?_, ?_⟩, hpe⟩
    · exact mem_dedupFirst.mpr (List.mem_map.mpr ⟨r, hrmem, rfl⟩)
    · simp [hde, hrde']

theorem ps_yyyymm (rows : List Row)
    (hrows : ∀ r ∈ rows, isYYYYMM (jsCellStr r 1) ∧
      (parseFloatStr (jsCellStr r 3)).isSome = true) (de pe : String)
    (h : pe ∈ ((dedupFirst (rows.map epKey)).filter
        (fun k => keyDe k = de)).map keyPe) :
    isYYYYMM pe := by
  obtain ⟨k, hk, rfl⟩ := List.mem_map.mp h
  obtain ⟨hks, -⟩ := List.mem_filter.mp hk
  obtain ⟨-, hY, -⟩ := ks_canonical rows hrows k (mem_dedupFirst.mp hks)
  exact hY

theorem periodsOf_yyyymm (rows : List Row)
    (hrows : ∀ r ∈ rows, isYYYYMM (jsCellStr r 1) ∧
      (parseFloatStr (jsCellStr r 3)).isSome = true) (de : String) :
    ∀ pe ∈ periodsOf rows de, isYYYYMM pe := by
  intro pe h
  unfold periodsOf at h
  obtain ⟨r, hr, rfl⟩ := List.mem_map.mp (mem_dedupFirst.mp h)
  exact (hrows r (List.mem_filter.mp hr).1).1

theorem ps_nodup (rows : List Row)
    (hrows : ∀ r ∈ rows, isYYYYMM (jsCellStr r 1) ∧
      (parseFloatStr (jsCellStr r 3)).isSome = true) (de : String) :
    (((dedupFirst (rows.map epKey)).filter
        (fun k => keyDe k = de)).map keyPe).Nodup := by
  apply List.Nodup.map_on ?_ ((nodup_dedupFirst _).filter _)
  intro k₁ h₁ k₂ h₂ hpe
  obtain ⟨hks₁, hkde₁⟩ := List.mem_filter.mp h₁
  obtain ⟨hks₂, hkde₂⟩ := List.mem_filter.mp h₂
  have hd₁ : keyDe k₁ = de := by simpa using hkde₁
  have hd₂ : keyDe k₂ = de := by simpa using hkde₂
  obtain ⟨hc₁, -, -⟩ := ks_canonical rows hrows k₁ (mem_dedupFirst.mp hks₁)
  obtain ⟨hc₂, -, -⟩ := ks_canonical rows hrows k₂ (mem_dedupFirst.mp hks₂)
  rw [← hc₁, ← hc₂, hd₁, hd₂, hpe]

theorem epGroups_items (rows : List Row)
    (hrows : ∀ r ∈ rows, isYYYYMM (jsCellStr r 1) ∧
      (parseFloatStr (jsCellStr r 3)).isSome = true) :
    dedupFirst ((epGroups rows).map (fun p => p.2.dataElement)) =
      dedupFirst (rows.map (fun r => jsCellStr r 0)) := by
  unfold epGroups
  rw [List.map_map]
  have hmapped : (dedupFirst (rows.map epKey)).map
      ((fun p : String × EPEntry => p.2.dataElement) ∘
        (fun k => (k, groupVal epKey epInit epUpd rows k))) =
      (dedupFirst (rows.map epKey)).map keyDe :=
    List.map_congr_left (fun k hk => by
      show (groupVal epKey epInit epUpd rows k).dataElement = keyDe k
      rw [groupVal_ep rows hrows k (mem_dedupFirst.mp hk)])
  rw [hmapped, dedupFirst_map_dedupFirst, List.map_map]
  congr 1
  apply List.map_congr_left
  intro r hr
  exact (epKey_parts r (hrows r hr).1).1

theorem points_of_de (rows : List Row) (meta : MetaItems)
    (hrows : ∀ r ∈ rows, isYYYYMM (jsCellStr r 1) ∧
      (parseFloatStr (jsCellStr r 3)).isSome = true) (de : String) :
    (List.insertionSort (fun a b : String × ℚ => jsStrLe a.1 b.1 = true)
        (((epGroups rows).filter (fun p => p.2.dataElement = de)).map
          (fun p => (p.2.period, meanOf p.2.values)))).map
      (fun q => (periodDisplayName meta q.1, toFixed2 q.2)) =
    (List.insertionSort (fun a b : String => compareConcretePeriods a b ≤ 0)
        (periodsOf rows de)).map
      (fun pe =>
        (periodDisplayName meta pe, toFixed2 (meanOf (valuesOf rows de pe)))) := by
  have h₂ : List.insertionSort
      (fun a b : String × ℚ => jsStrLe a.1 b.1 = true)
      ((((dedupFirst (rows.map epKey)).filter
          (fun k => keyDe k = de)).map keyPe).map
        (fun pe => (pe, meanOf (valuesOf rows de pe)))) =
      (List.insertionSort (fun a b : String => jsStrLe a b = true)
        (((dedupFirst (rows.map epKey)).filter
          (fun k => keyDe k = de)).map keyPe)).map
        (fun pe => (pe, meanOf (valuesOf rows de pe))) :=
    insertionSort_map_fst (fun a b : String => jsStrLe a b = true)
      (fun pe => meanOf (valuesOf rows de pe)) _
  have h₃ : List.insertionSort (fun a b : String => jsStrLe a b = true)
      (((dedupFirst (rows.map epKey)).filter
        (fun k => keyDe k = de)).map keyPe) =
      List.insertionSort
        (fun a b : String => compareConcretePeriods a b ≤ 0)
        (((dedupFirst (rows.map epKey)).filter
          (fun k => keyDe k = de)).map keyPe) :=
    insertionSort_congr _ _ _ (fun a ha b hb =>
      (cmp_le_iff_jsStrLe (ps_yyyymm rows hrows de a ha)
        (ps_yyyymm rows hrows de b hb)).symm)
  have h₄ : List.insertionSort
      (fun a b : String => compareConcretePeriods a b ≤ 0)
      (((dedupFirst (rows.map epKey)).filter
        (fun k => keyDe k = de)).map keyPe) =
      List.insertionSort
        (fun a b : String => compareConcretePeriods a b ≤ 0)
        (periodsOf rows de) :=
    insertionSort_cmp_eq_of_mem _ _
      (fun p hp => ps_yyyymm rows hrows de p hp)
      (periodsOf_yyyymm rows hrows de)
      (ps_nodup rows hrows de)
      (nodup_dedupFirst _)
      (fun x => mem_ps_iff rows hrows de x)
  rw [epGroups_points rows hrows de, h₂, h₃, h₄, List.map_map]
  rfl

/-- C2: for every non-empty well-formed row set (each row carrying a
`YYYYMM` period and a parseable numeric value, with display names not
conflating distinct items), the per-item time series of the summary has
one point per distinct period present in the data, each point's value
being the arithmetic mean of the matching records reported through the
2-decimal `toFixed` rounding, and the points are ordered chronologically
by the underlying concrete period — on each item's axis the `YYYYMM`
identifiers sorted with `compareConcretePeriods` are in strictly
increasing numeric (calendar) order, also across a year boundary. -/
theorem timeSeries_chronological (rows : List Row) (meta : MetaItems)
    (b : Bool) (hne : rows ≠ [])
    (hrows : ∀ r ∈ rows, isYYYYMM (jsCellStr r 1) ∧
      (parseFloatStr (jsCellStr r 3)).isSome = true)
    (hnames : ∀ r ∈ rows, ∀ r₂ ∈ rows,
      metaDisplayName meta (jsCellStr r 0) =
        metaDisplayName meta (jsCellStr r₂ 0) →
      jsCellStr r 0 = jsCellStr r₂ 0) :
    (calculateSummary stdHeaders (some rows) meta b).timeSeriesData =
      specTimeSeries meta rows ∧
    (∀ de ∈ dedupFirst (rows.map (fun r => jsCellStr r 0)),
      List.Pairwise
        (fun p q : String => digitsToNat p.data < digitsToNat q.data)
        (List.insertionSort
          (fun a b : String => compareConcretePeriods a b ≤ 0)
          (periodsOf rows de))) := by
  constructor
  · have hempty : rows.isEmpty = false := by
      rcases hr : rows with _ | _
      · exact absurd hr hne
      · rfl
    have hepne : ¬ (epGroups rows).isEmpty = true := by
      rcases hr : rows with _ | ⟨r, rs⟩
      · exact absurd hr hne
      · subst hr
        simp [epGroups, dedupFirst]
    have hidxv : stdHeaders.findIdx? (fun h => h.name = "value") = some 3 :=
      rfl
    have hidxd : stdHeaders.findIdx? (fun h => h.name = "dx") = some 0 := rfl
    have hidxo : stdHeaders.findIdx? (fun h => h.name = "ou") = some 2 := rfl
    have hidxp : stdHeaders.findIdx? (fun h => h.name = "pe") = some 1 := rfl
    have hts : (calculateSummary stdHeaders (some rows) meta b).timeSeriesData =
        buildTimeSeries meta (epGroups rows) := by
      unfold calculateSummary
      simp only [hempty, Bool.false_eq_true, if_false, hidxv, hidxd, hidxo,
        hidxp]
      rw [ep_of_rows b rows hrows]
      rw [if_pos hepne]
    rw [hts]
    have h_esr : elementSeriesRaw (epGroups rows) =
        (dedupFirst ((epGroups rows).map (fun p => p.2.dataElement))).map
          (fun de => (de,
            ((epGroups rows).filter (fun p => p.2.dataElement = de)).map
              (fun p => (p.2.period, meanOf p.2.values)))) :=
      foldl_updateAt_push (fun p : String × EPEntry => p.2.dataElement)
        (fun p : String × EPEntry => (p.2.period, meanOf p.2.values))
        (epGroups rows)
    have hitems := epGroups_items rows hrows
    have hinj : ∀ k ∈ dedupFirst ((epGroups rows).map
          (fun p => p.2.dataElement)),
        ∀ k₂ ∈ dedupFirst ((epGroups rows).map (fun p => p.2.dataElement)),
        metaDisplayName meta k = metaDisplayName meta k₂ → k = k₂ := by
      intro k hk k₂ hk₂ hN
      rw [hitems] at hk hk₂
      obtain ⟨r, hr, rfl⟩ := List.mem_map.mp (mem_dedupFirst.mp hk)
      obtain ⟨r₂, hr₂, rfl⟩ := List.mem_map.mp (mem_dedupFirst.mp hk₂)
      exact hnames r hr r₂ hr₂ hN
    have h_bts : buildTimeSeries meta (epGroups rows) =
        (dedupFirst ((epGroups rows).map (fun p => p.2.dataElement))).map
          (fun de => (metaDisplayName meta de,
            (List.insertionSort
                (fun a b : String × ℚ => jsStrLe a.1 b.1 = true)
                (((epGroups rows).filter
                    (fun p => p.2.dataElement = de)).map
                  (fun p => (p.2.period, meanOf p.2.values)))).map
              (fun q => (periodDisplayName meta q.1, toFixed2 q.2)))) := by
      unfold buildTimeSeries
      rw [h_esr, List.foldl_map]
      exact foldl_setAt_names (metaDisplayName meta)
        (fun de =>
          (List.insertionSort
              (fun a b : String × ℚ => jsStrLe a.1 b.1 = true)
              (((epGroups rows).filter
                  (fun p => p.2.dataElement = de)).map
                (fun p => (p.2.period, meanOf p.2.values)))).map
            (fun q => (periodDisplayName meta q.1, toFixed2 q.2)))
        (dedupFirst ((epGroups rows).map (fun p => p.2.dataElement))) []
        hinj (nodup_dedupFirst _) (by simp)
    rw [h_bts, hitems]
    unfold specTimeSeries
    apply List.map_congr_left
    intro de hde
    rw [points_of_de rows meta hrows de]
  · intro de hde
    have hQY := periodsOf_yyyymm rows hrows de
    have hsorteq : List.insertionSort
        (fun a b : String => compareConcretePeriods a b ≤ 0)
        (periodsOf rows de) =
        List.insertionSort (fun a b : String => jsStrLe a b = true)
          (periodsOf rows de) :=
      insertionSort_congr _ _ _ (fun a ha b hb =>
        cmp_le_iff_jsStrLe (hQY a ha) (hQY b hb))
    rw [hsorteq]
    have hsorted := @List.sorted_insertionSort String
      (fun a b : String => jsStrLe a b = true) _
      ⟨fun a b => jsStrLe_total a b⟩ ⟨fun _ _ _ => jsStrLe_trans⟩
      (periodsOf rows de)
    have hndP : (periodsOf rows de).Nodup := nodup_dedupFirst _
    have hnd : (List.insertionSort
        (fun a b : String => jsStrLe a b = true)
        (periodsOf rows de)).Nodup :=
      ((List.perm_insertionSort _ _).nodup_iff).mpr hndP
    have hpair := List.Pairwise.and hsorted hnd
    refine List.Pairwise.imp_of_mem ?_ hpair
    intro p q hp hq hpq
    have hpY := hQY p ((List.perm_insertionSort _ _).mem_iff.mp hp)
    have hqY := hQY q ((List.perm_insertionSort _ _).mem_iff.mp hq)
    obtain ⟨hle, hne'⟩ := hpq
    have hnotlt : ¬ digitsToNat q.data < digitsToNat p.data := by
      intro hcontra
      have hlt := (lexLt_digits_iff q.data p.data
        (by rw [hqY.1, hpY.1]) hqY.2 hpY.2).mpr hcontra
      unfold jsStrLe at hle
      rw [hlt] at hle
      simp at hle
    have hneq : digitsToNat p.data ≠ digitsToNat q.data := by
      intro hcontra
      exact hne' (String.ext (digitsToNat_inj
        (by rw [hpY.1, hqY.1]) hpY.2 hqY.2 hcontra))
    omega

/-- Witness for C2's theorem at a concrete two-row input crossing the
2024→2025 year boundary. -/
theorem timeSeries_chronological_witness :
    (calculateSummary stdHeaders
        (some [["ANC1", "202501", "u", "10"], ["ANC1", "202412", "u", "20"]])
        [] false).timeSeriesData =
      specTimeSeries []
        [["ANC1", "202501", "u", "10"], ["ANC1", "202412", "u", "20"]] ∧
    (∀ de ∈ dedupFirst
        (([["ANC1", "202501", "u", "10"],
          ["ANC1", "202412", "u", "20"]] : List Row).map
          (fun r => jsCellStr r 0)),
      List.Pairwise
        (fun p q : String => digitsToNat p.data < digitsToNat q.data)
        (List.insertionSort
          (fun a b : String => compareConcretePeriods a b ≤ 0)
          (periodsOf [["ANC1", "202501", "u", "10"],
            ["ANC1", "202412", "u", "20"]] de))) :=
  timeSeries_chronological
    [["ANC1", "202501", "u", "10"], ["ANC1", "202412", "u", "20"]] [] false
    (by decide) (by decide) (by decide)

unseal Rat.mul Rat.add Rat.inv Rat.sub in
/-- Counterexample to C2 as stated: for three rows with values 1, 1, 2 in
a single (item, period) group the time-series point carries 1.33 — the
2-decimal `toFixed` rounding of the mean — not the exact arithmetic mean
4/3. -/
theorem timeSeries_exact_mean_counterexample :
    (calculateSummary stdHeaders
        (some [["d", "202501", "u", "1"], ["d", "202501", "u", "1"],
          ["d", "202501", "u", "2"]]) [] false).timeSeriesData =
      [("d", [("January 2025", 133 / 100)])] ∧
    meanOf [1, 1, 2] = 4 / 3 ∧ ((133 : ℚ) / 100) ≠ 4 / 3 := by decide

end DHIS2
